import Mathlib

/-!
# goSQL: field-mapping builder and PostgreSQL translator

A shallow embedding of `db/EntityProperty.go` and
`translators/PostgreSQLTranslator.go`.

The Go code works through the `reflect` package.  The part of `reflect` the
code relies on is modelled here:

* `RType` is a `reflect.Type`.  Struct types are referred to by name and their
  field lists live in a type environment (`TypeEnv`), so that recursive type
  declarations (`type A struct { *A }`) are representable.
* `Val`, `Heap`, `Value` model run-time values with their types, the memory
  they live in and `reflect.Value` handles (addressable or not, with the
  read-only flags of values reached through fields that are not exported).
  A Go panic is `none`.
* `TypeEnv.FieldByName` is the lookup of a declared or promoted field of
  `reflect.Type.FieldByNameFunc`.
* `unicode.ToLower` and `unicode.IsUpper` are given by tables of ranges of code
  points, as in the Go package `unicode`.
-/

namespace GoSQL

/-! ## reflect.Type -/

/-- The kinds of `reflect.Kind` the code distinguishes, with the remaining
kinds that can be the kind of a field (`Bool`, `Int`, `String`, ...) carried
as `Kind.Plain`. `Invalid` is the kind of the zero `reflect.Value`. -/
inductive Kind where
  | Invalid
  | Plain
  | Interface
  | Ptr
  | Slice
  | Array
  | Struct
  deriving DecidableEq, Repr

/-- A `reflect.Type`. `plain n` is a type of plain kind called `n` (`int`,
`string`, `time.Duration`, ...), `iface n` an interface type; `struct n` is the
struct type called `n`, whose fields are looked up in the type environment. -/
inductive RType where
  | plain (name : String)
  | iface (name : String)
  | ptr (elem : RType)
  | slice (elem : RType)
  | array (len : Nat) (elem : RType)
  | struct (name : String)
  deriving DecidableEq, Repr

/-- `reflect.Type.Kind`. -/
def RType.Kind : RType → Kind
  | .plain _ => .Plain
  | .iface _ => .Interface
  | .ptr _ => .Ptr
  | .slice _ => .Slice
  | .array _ _ => .Array
  | .struct _ => .Struct

/-- `reflect.Type.Elem`: the element type of a pointer, slice or array type;
it panics (`none`) for the other kinds modelled here. -/
def RType.Elem : RType → Option RType
  | .ptr e => some e
  | .slice e => some e
  | .array _ e => some e
  | _ => none

/-- `reflect.PtrTo`. -/
def PtrTo (t : RType) : RType := .ptr t

/-- A `reflect.StructField`: `PkgPath` is empty exactly for exported fields,
`Anonymous` marks an embedded field. -/
structure StructField where
  Name : String
  PkgPath : String
  Typ : RType
  Tag : String
  Anonymous : Bool
  deriving DecidableEq, Repr

/-- The struct declarations of a program: struct type name and declared fields,
in declaration order. -/
abbrev TypeEnv := List (String × List StructField)

/-- The fields `typ.Field(0) .. typ.Field(typ.NumField()-1)` of the struct type
called `n`. -/
def TypeEnv.fields (env : TypeEnv) (n : String) : List StructField :=
  (env.lookup n).getD []

/-! ## EntityProperty and the mapping -/

/-- The struct `EntityProperty`. `InnerType` is `none` for the nil type. -/
structure EntityProperty where
  FieldName : String
  Position : Int
  Typ : RType
  InnerType : Option RType
  Key : Bool
  Tag : String
  deriving DecidableEq, Repr

/-- `EntityProperty.IsMany`. -/
def EntityProperty.IsMany (self : EntityProperty) : Bool :=
  self.InnerType != none

/-- A Go `map[string]*EntityProperty`: an association list with at most one
entry per key. -/
abbrev Attrs := List (String × EntityProperty)

/-- The statement `attrs[key] = ep`. -/
def Attrs.set (m : Attrs) (key : String) (ep : EntityProperty) : Attrs :=
  (key, ep) :: m.filter (fun e => decide (e.1 ≠ key))

/-- The expression `attrs[key]` (with its presence flag). -/
def Attrs.get? (m : Attrs) (key : String) : Option EntityProperty :=
  m.lookup key

/-- The key set of a map. -/
def Attrs.keys (m : Attrs) : List String := m.map Prod.fst

/-- `len(attrs)`. -/
def Attrs.len (m : Attrs) : Nat := m.length

/-- Whether a field is exported: "no package path equals to exported field". -/
def StructField.exported (p : StructField) : Bool := decide (p.PkgPath = "")

/-- The descriptor built in the `else` branch of the loop body of
`walkTreeStruct` (lines 83-102) for the field `p`. The map holds the pointer
`ep`, so the assignments made after `attrs[key] = ep` show in the map.
`Position` and `Key` are never assigned and keep their zero values. -/
def newProperty (p : StructField) : EntityProperty :=
  { FieldName := p.Name
    Position := 0
    Typ := if p.Typ.Kind = .Ptr ∨ p.Typ.Kind = .Slice ∨ p.Typ.Kind = .Array
            then p.Typ else PtrTo p.Typ
    InnerType := if p.Typ.Kind = .Slice ∨ p.Typ.Kind = .Array
                 then p.Typ.Elem else none
    Key := false
    Tag := p.Tag }

/-- The key under which the field `p` is stored (lines 84-89). -/
def fieldKey (pfx : String) (p : StructField) : String :=
  if pfx = "" then p.Name else pfx ++ p.Name

/-- The loop of `walkTreeStruct` over the fields of a struct; `walk` is the
recursive call. -/
def walkFields (walk : String → RType → Attrs → Option Attrs) (pfx : String) :
    List StructField → Attrs → Option Attrs
  | [], attrs => some attrs
  | p :: rest, attrs =>
    if p.PkgPath = "" then
      if p.Anonymous then
        match walk pfx p.Typ attrs with
        | none => none
        | some attrs1 => walkFields walk pfx rest attrs1
      else
        walkFields walk pfx rest (attrs.set (fieldKey pfx p) (newProperty p))
    else
      walkFields walk pfx rest attrs

/-- The type after the first statement of `walkTreeStruct`: a pointer type is
replaced by its element type, once. -/
def derefOnce (typ : RType) : RType :=
  match typ with
  | .ptr e => e
  | t => t

/-- `walkTreeStruct`. The map is passed and returned; `fuel` bounds the depth
of recursive calls, and `none` is the call that does not return. A type that
is not a struct type once a pointer is replaced by its element type returns the
map as it is (lines 65-73); for a struct type the loop runs over its fields. -/
def walkTreeStruct (env : TypeEnv) : Nat → String → RType → Attrs → Option Attrs
  | 0, _, _, _ => none
  | fuel + 1, pfx, typ, attrs =>
    match derefOnce typ with
    | .struct n => walkFields (walkTreeStruct env fuel) pfx (env.fields n) attrs
    | _ => some attrs

/-- `PopulateMapping`. -/
def PopulateMapping (env : TypeEnv) (fuel : Nat) (pfx : String) (typ : RType) :
    Option Attrs :=
  walkTreeStruct env fuel pfx typ []

/-- `PopulateMappingOf`: `dyn` is `reflect.TypeOf(m)`, which is nil (`none`)
for a nil interface value; `typ.Kind()` then panics. -/
def PopulateMappingOf (env : TypeEnv) (fuel : Nat) (pfx : String)
    (dyn : Option RType) : Option Attrs :=
  match dyn with
  | none => none
  | some typ => PopulateMapping env fuel pfx typ

/-! ## Proof devices for the mapping builder -/

/-- The map after `attrs[key] = ep` has been run, in order, for the fields of
`fs`, each with the key and descriptor `walkTreeStruct` gives it. -/
def insertAll (pfx : String) (fs : List StructField) (attrs : Attrs) : Attrs :=
  fs.foldl (fun a p => a.set (fieldKey pfx p) (newProperty p)) attrs

/-- The fields for which the loop of `walkTreeStruct` reaches line 83, in the
order it reaches them; `visit` is the recursive call. -/
def visitFields (visit : RType → Option (List StructField)) :
    List StructField → Option (List StructField)
  | [] => some []
  | p :: rest =>
    if p.PkgPath = "" then
      if p.Anonymous then
        match visit p.Typ with
        | none => none
        | some l =>
          match visitFields visit rest with
          | none => none
          | some l1 => some (l ++ l1)
      else
        match visitFields visit rest with
        | none => none
        | some l1 => some (p :: l1)
    else
      visitFields visit rest

/-- The fields a call of `walkTreeStruct` on `typ` builds a descriptor for, in
order; `none` when the call does not return within `fuel` nested calls. -/
def visited (env : TypeEnv) : Nat → RType → Option (List StructField)
  | 0, _ => none
  | fuel + 1, typ =>
    match derefOnce typ with
    | .struct n => visitFields (visited env fuel) (env.fields n)
    | _ => some []

/-- The map `m` with `pfx` put in front of every key. -/
def Attrs.addPrefix (pfx : String) (m : Attrs) : Attrs :=
  m.map (fun e => (pfx ++ e.1, e.2))

/-- The declarations of `env` without their unexported fields. -/
def stripPrivate (env : TypeEnv) : TypeEnv :=
  env.map (fun d => (d.1, d.2.filter StructField.exported))

/-! ## reflect.Value -/

/-- An addressable place: a heap cell and a path of field names leading into
its content. -/
structure Ref where
  loc : Nat
  path : List String
  deriving DecidableEq, Repr

/-- A run-time value, with its type: a value of the plain type or interface
type called `typ`, a pointer to or slice or array of `elem`, a value of the
struct type called `typ`. The content of plain values is an integer code; a nil
pointer, interface or slice is `none`. -/
inductive Val where
  | plain (typ : String) (data : Int)
  | iface (typ : String) (dyn : Option Val)
  | ptr (elem : RType) (target : Option Ref)
  | slice (elem : RType) (elems : Option (List Val))
  | array (elem : RType) (elems : List Val)
  | struct (typ : String) (fields : List (String × Val))

/-- The type of a run-time value. -/
def Val.typ : Val → RType
  | .plain n _ => .plain n
  | .iface n _ => .iface n
  | .ptr e _ => .ptr e
  | .slice e _ => .slice e
  | .array e es => .array es.length e
  | .struct n _ => .struct n

/-- The kind of a run-time value. -/
def Val.Kind : Val → Kind
  | .plain _ _ => .Plain
  | .iface _ _ => .Interface
  | .ptr _ _ => .Ptr
  | .slice _ _ => .Slice
  | .array _ _ => .Array
  | .struct _ _ => .Struct

/-- The value of the struct field called `n`, when `v` is a struct that has
such a field. -/
def Val.field? (v : Val) (n : String) : Option Val :=
  match v with
  | .struct _ fs => fs.lookup n
  | _ => none

/-- The struct `v` with its field `n` replaced by `x`. -/
def Val.withField (v : Val) (n : String) (x : Val) : Val :=
  match v with
  | .struct t fs => .struct t (fs.map (fun e => if e.1 = n then (e.1, x) else e))
  | w => w

/-- The part of `v` found by following the field names of `path`. -/
def Val.sub (v : Val) : List String → Option Val
  | [] => some v
  | n :: path =>
    match v.field? n with
    | none => none
    | some w => w.sub path

/-- The value `v` with the part at `path` replaced by `x`. -/
def Val.putSub (v : Val) (x : Val) : List String → Option Val
  | [] => some x
  | n :: path =>
    match v.field? n with
    | none => none
    | some w =>
      match w.putSub x path with
      | none => none
      | some w1 => some (v.withField n w1)

/-- The memory: the content of each allocated cell. The content of a place is
taken to have the type of the place. -/
abbrev Heap := Nat → Option Val

/-- The content of a place. -/
def Heap.read (h : Heap) (r : Ref) : Option Val :=
  match h r.loc with
  | none => none
  | some v => v.sub r.path

/-- The memory after storing `x` at the place `r`; `none` when there is no such
place. -/
def Heap.write (h : Heap) (r : Ref) (x : Val) : Option Heap :=
  match h r.loc with
  | none => none
  | some v =>
    match v.putSub x r.path with
    | none => none
    | some v1 => some (fun l => if l = r.loc then some v1 else h l)

/-- The read-only flags of a `reflect.Value`: `stickyRO` marks a value obtained
through an unexported field that is not embedded, `embedRO` one obtained
through an unexported embedded field. -/
structure Flag where
  stickyRO : Bool
  embedRO : Bool
  deriving DecidableEq, Repr

/-- The test `flag&flagRO != 0`. -/
def Flag.RO (f : Flag) : Bool := f.stickyRO || f.embedRO

/-- The flags of the field `sf` of a struct value with flags `fl`, as
`reflect.Value.Field` computes them: `stickyRO` is inherited, `embedRO` is not,
and an unexported field sets one of the two. -/
def Flag.field (fl : Flag) (sf : StructField) : Flag :=
  if sf.PkgPath = "" then ⟨fl.stickyRO, false⟩
  else if sf.Anonymous then ⟨fl.stickyRO, true⟩
  else ⟨true, false⟩

/-- A `reflect.Value`: the zero Value, a value that is not addressable (as
returned by `reflect.ValueOf`), or an addressable value, which designates a
place of the memory; the last two with their read-only flags. -/
inductive Value where
  | zero
  | direct (v : Val) (fl : Flag)
  | place (r : Ref) (fl : Flag)

/-- The read-only flags of a `reflect.Value`. -/
def Value.flag : Value → Flag
  | .zero => ⟨false, false⟩
  | .direct _ fl => fl
  | .place _ fl => fl

/-- The content a `reflect.Value` currently holds. -/
def Value.load (h : Heap) : Value → Option Val
  | .zero => none
  | .direct v _ => some v
  | .place r _ => h.read r

/-- `reflect.Value.Kind`; `Invalid` for the zero Value. -/
def Value.Kind (h : Heap) (v : Value) : Kind :=
  match v.load h with
  | none => .Invalid
  | some x => x.Kind

/-- `reflect.Value.IsNil` for pointers, interfaces and slices; it panics for
kinds that have no nil. The code calls it on pointers only. -/
def Value.IsNil (h : Heap) (v : Value) : Option Bool :=
  match v.load h with
  | some (.ptr _ t) => some t.isNone
  | some (.iface _ d) => some d.isNone
  | some (.slice _ e) => some e.isNone
  | _ => none

/-- `reflect.Value.Elem`: the value a pointer points to, addressable and with
the flags of the pointer, or the value an interface contains, read-only when
the interface is; the zero Value for nil; a panic for other kinds. -/
def Value.Elem (h : Heap) (v : Value) : Option Value :=
  match v.load h with
  | some (.ptr _ (some r)) => some (.place r v.flag)
  | some (.ptr _ none) => some .zero
  | some (.iface _ (some d)) => some (.direct d ⟨v.flag.RO, false⟩)
  | some (.iface _ none) => some .zero
  | _ => none

/-- `reflect.Value.Field` for the field `sf` of the struct type of `v`: the
field, addressable when the struct is; a panic when `v` is not a struct
(`Val.field?` is then `none`). -/
def Value.Field (h : Heap) (v : Value) (sf : StructField) : Option Value :=
  match v with
  | .zero => none
  | .direct x fl =>
    match x.field? sf.Name with
    | some y => some (.direct y (fl.field sf))
    | none => none
  | .place r fl =>
    match h.read r with
    | none => none
    | some x =>
      match x.field? sf.Name with
      | some _ => some (.place ⟨r.loc, r.path ++ [sf.Name]⟩ (fl.field sf))
      | none => none

/-- The step of `reflect.Value.FieldByIndex` taken before every field but the
first: a pointer to a struct is replaced by the struct it points to, with a
panic when it is nil. -/
def Value.indirect (h : Heap) (v : Value) : Option Value :=
  match v.load h with
  | some (.ptr (.struct _) none) => none
  | some (.ptr (.struct _) (some _)) => v.Elem h
  | _ => some v

/-- The loop of `reflect.Value.FieldByIndex` from its second round on. -/
def Value.FieldByIndexFrom (h : Heap) : Value → List StructField → Option Value
  | v, [] => some v
  | v, sf :: rest =>
    match v.indirect h with
    | none => none
    | some w =>
      match w.Field h sf with
      | none => none
      | some u => Value.FieldByIndexFrom h u rest

/-- `reflect.Value.FieldByIndex`, the index given by the fields to take. -/
def Value.FieldByIndex (h : Heap) (v : Value) : List StructField → Option Value
  | [] => some v
  | sf :: rest =>
    match v.Field h sf with
    | none => none
    | some u => u.FieldByIndexFrom h rest

/-- An entry of the work lists of `reflect.Type.FieldByNameFunc`: a struct type
to look into and the embedded fields that lead to it. -/
structure fieldScan where
  typ : String
  index : List StructField

/-- The variables of `reflect.Type.FieldByNameFunc`: `result` (`ok` is
`result.isSome`), whether the function has returned "not found" because of two
matches at one depth, the work list `next`, `nextCount` and `visited`. -/
structure scanState where
  result : Option (List StructField)
  annihilated : Bool
  next : List fieldScan
  nextCount : List (String × Nat)
  visited : List String

/-- The count a map of counts holds for the struct type `s`, 0 when absent. -/
def countOf (c : List (String × Nat)) (s : String) : Nat := (c.lookup s).getD 0

/-- The body of the inner loop of `FieldByNameFunc`, for the field `f` of the
struct type of `scan`. A field of the name looked for is the result, unless its
struct type was reached twice at this depth or there is a result already, in
which case nothing is found. Otherwise an embedded struct (or pointer to
struct) is queued for the next depth, once, its count recording whether it was
met more than once. -/
def scanField (name : String) (count : List (String × Nat)) (scan : fieldScan)
    (st : scanState) (f : StructField) : scanState :=
  if st.annihilated then st
  else if f.Name = name then
    if countOf count scan.typ > 1 ∨ st.result.isSome then
      { st with result := none, annihilated := true }
    else
      { st with result := some (scan.index ++ [f]) }
  else if st.result.isSome then st
  else if f.Anonymous then
    match derefOnce f.Typ with
    | .struct s =>
      if countOf st.nextCount s > 0 then
        { st with nextCount := (s, 2) :: st.nextCount }
      else
        { st with
          nextCount := (s, if countOf count scan.typ > 1 then 2 else 1) :: st.nextCount
          next := st.next ++ [⟨s, scan.index ++ [f]⟩] }
    | _ => st
  else st

/-- The body of the loop of `FieldByNameFunc` over the work list `current`: a
struct type seen before is skipped, else its fields are gone through. -/
def scanStruct (env : TypeEnv) (name : String) (count : List (String × Nat))
    (st : scanState) (scan : fieldScan) : scanState :=
  if st.annihilated then st
  else if scan.typ ∈ st.visited then st
  else
    (env.fields scan.typ).foldl (scanField name count scan)
      { st with visited := scan.typ :: st.visited }

/-- The outer loop of `FieldByNameFunc`, one depth of embedding per round.
Every round but the last marks a struct type as visited that was not, so the
number of rounds is at most the number of fields of the program plus two, which
is the `fuel` given by `TypeEnv.FieldByName`. -/
def scanLevels (env : TypeEnv) (name : String) :
    Nat → List fieldScan → List (String × Nat) → List String → Option (List StructField)
  | 0, _, _, _ => none
  | fuel + 1, current, count, visited =>
    match current with
    | [] => none
    | _ :: _ =>
      let st := current.foldl (scanStruct env name count) ⟨none, false, [], [], visited⟩
      if st.annihilated then none
      else
        match st.result with
        | some index => some index
        | none => scanLevels env name fuel st.next st.nextCount st.visited

/-- `reflect.Type.FieldByName` on the struct type called `n`: the field of that
name the struct declares or, failing that, the one promoted from its embedded
structs by the rule of the Go language (a unique match at the least depth),
given by the fields to take from `n`; `none` when there is none. -/
def TypeEnv.FieldByName (env : TypeEnv) (n name : String) : Option (List StructField) :=
  if name = "" then none
  else
    match (env.fields n).find? (fun f => decide (f.Name = name)) with
    | some f => some [f]
    | none =>
      if (env.fields n).any (fun f => f.Anonymous) then
        scanLevels env name ((env.map (fun d => d.2.length)).sum + 2) [⟨n, []⟩] [] []
      else none

/-- `reflect.Value.FieldByName`: the field, declared or promoted, or the zero
Value when the struct type has no field of that name; a panic when the value is
not a struct, or when a nil embedded pointer is on the way to the field. -/
def Value.FieldByName (env : TypeEnv) (h : Heap) (v : Value) (name : String) :
    Option Value :=
  match v.load h with
  | some (.struct n _) =>
    match env.FieldByName n name with
    | some index => v.FieldByIndex h index
    | none => some .zero
  | _ => none

/-- The value `reflect.Value.Set` stores for a source `x` into a place of type
`dst`: `x` itself when the types are identical; `x` boxed when `dst` is an
interface type that the type of `x` implements (`impl`); a panic otherwise. -/
def assignTo (impl : String → RType → Bool) (dst : RType) (x : Val) : Option Val :=
  if x.typ = dst then some x
  else
    match dst with
    | .iface n =>
      if impl n x.typ then
        match x with
        | .iface _ d => some (.iface n d)
        | c => some (.iface n (some c))
      else none
    | _ => none

/-- `reflect.Value.Set`: `dst` must be addressable and not read-only, `src`
valid and not read-only, and the type of `src` assignable to that of `dst`,
else it panics. `impl n t` tells whether the type `t` implements the interface
type called `n`. -/
def Value.Set (impl : String → RType → Bool) (h : Heap) (dst src : Value) :
    Option Heap :=
  match dst with
  | .place r fl =>
    if fl.RO then none
    else
      match src.load h with
      | none => none
      | some x =>
        if src.flag.RO then none
        else
          match h.read r with
          | none => none
          | some old =>
            match assignTo impl old.typ x with
            | none => none
            | some y => h.write r y
  | _ => none

/-- `EntityProperty.Set`. The memory is passed and returned with the result. -/
def EntityProperty.Set (self : EntityProperty) (env : TypeEnv)
    (impl : String → RType → Bool) (h : Heap) (inst value : Value) :
    Option (Bool × Heap) :=
  match (if value.Kind h ≠ .Ptr then some true
         else (value.IsNil h).map (fun b => !b)) with
  | none => none
  | some false => some (false, h)
  | some true =>
    match (if inst.Kind h = .Ptr then inst.Elem h else some inst) with
    | none => none
    | some inst1 =>
      match inst1.FieldByName env h self.FieldName with
      | none => none
      | some field =>
        if field.Kind h = .Ptr ∨ field.Kind h = .Slice ∨ field.Kind h = .Array then
          match field.Set impl h value with
          | none => none
          | some h1 => some (true, h1)
        else
          match value.Elem h with
          | none => none
          | some e =>
            match field.Set impl h e with
            | none => none
            | some h1 => some (true, h1)

/-- `EntityProperty.Get`. -/
def EntityProperty.Get (self : EntityProperty) (env : TypeEnv) (h : Heap) (inst : Value) :
    Option Value :=
  match (if inst.Kind h = .Ptr then inst.Elem h else some inst) with
  | none => none
  | some inst1 => inst1.FieldByName env h self.FieldName

/-! ### Proof devices for `Set` and `Get` -/

/-- Two contents of a place that `Get` cannot tell apart: the same content, or
two structs of one type with the same field names. -/
def sameShape (a b : Option Val) : Prop :=
  a = b ∨ ∃ n fs fs1, a = some (.struct n fs) ∧ b = some (.struct n fs1) ∧
    ∀ k, (fs.lookup k).isSome = (fs1.lookup k).isSome

/-! ## The translators -/

/-- Modelled from the spec: the statement object model (`db.Column`, `db.Table`,
`db.Insert`) is not among the sources. A column has a name and may be virtual;
a table has a name and a single key column; an insert descriptor has its table
and the flag `HasKeyValue`. -/
structure Column where
  Name : String
  Virtual : Bool
  deriving DecidableEq, Repr

structure Table where
  Name : String
  SingleKeyColumn : Column
  deriving DecidableEq, Repr

structure Insert where
  Table : Table
  HasKeyValue : Bool
  deriving DecidableEq, Repr

/-- The methods of the interface `db.Translator` through which a translator
calls back into the outermost translator. -/
structure Translator where
  GetPlaceholder : Int → String → String
  TableName : Table → String
  ColumnName : Column → String

/-- Modelled from the spec: `GenericTranslator` is not among the sources. It
holds `overrider`, the reference to the outermost translator that `Init` sets,
and renders the baseline insert statement. -/
structure GenericTranslator where
  overrider : Translator
  GetSqlForInsert : Insert → String

/-- The struct `PostgreSQLTranslator`, which embeds `*GenericTranslator`. -/
structure PostgreSQLTranslator where
  GenericTranslator : GenericTranslator

/-! ## Unicode case tables -/

/-- A range of code points as in the tables of the Go package `unicode`: the
code points `Lo`, `Lo + Stride`, ... up to `Hi`. -/
structure Range32 where
  Lo : Nat
  Hi : Nat
  Stride : Nat

/-- A range of code points with the distance to their lower-case forms: the
lower-case form of a code point `n` of the range is `n + Add - Sub`. -/
structure CaseRange where
  Lo : Nat
  Hi : Nat
  Stride : Nat
  Add : Nat
  Sub : Nat

/-- Whether the code point `n` is in the range. -/
def Range32.has (r : Range32) (n : Nat) : Bool :=
  Nat.ble r.Lo n && Nat.ble n r.Hi && Nat.beq ((n - r.Lo) % r.Stride) 0

/-- Whether the code point `n` is in the range. -/
def CaseRange.has (r : CaseRange) (n : Nat) : Bool :=
  Nat.ble r.Lo n && Nat.ble n r.Hi && Nat.beq ((n - r.Lo) % r.Stride) 0

/-- The code points that have a lower-case form different from themselves,
with the distance to it: the content of `unicode.CaseRanges` for the lower
case (simple case mappings of Unicode 14.0, which Unicode 15.0 leaves as they
are), a range of alternating upper-case and lower-case letters being given as
the range of its upper-case letters, with stride 2 and distance 1. -/
def lowerRanges : List CaseRange :=
  [CaseRange.mk 65 90 1 32 0, CaseRange.mk 192 214 1 32 0, CaseRange.mk 216 222 1 32 0,
   CaseRange.mk 256 302 2 1 0, CaseRange.mk 304 304 1 0 199, CaseRange.mk 306 310 2 1 0,
   CaseRange.mk 313 327 2 1 0, CaseRange.mk 330 374 2 1 0, CaseRange.mk 376 376 1 0 121,
   CaseRange.mk 377 381 2 1 0, CaseRange.mk 385 385 1 210 0, CaseRange.mk 386 388 2 1 0,
   CaseRange.mk 390 390 1 206 0, CaseRange.mk 391 391 1 1 0, CaseRange.mk 393 394 1 205 0,
   CaseRange.mk 395 395 1 1 0, CaseRange.mk 398 398 1 79 0, CaseRange.mk 399 399 1 202 0,
   CaseRange.mk 400 400 1 203 0, CaseRange.mk 401 401 1 1 0, CaseRange.mk 403 403 1 205 0,
   CaseRange.mk 404 404 1 207 0, CaseRange.mk 406 406 1 211 0, CaseRange.mk 407 407 1 209 0,
   CaseRange.mk 408 408 1 1 0, CaseRange.mk 412 412 1 211 0, CaseRange.mk 413 413 1 213 0,
   CaseRange.mk 415 415 1 214 0, CaseRange.mk 416 420 2 1 0, CaseRange.mk 422 422 1 218 0,
   CaseRange.mk 423 423 1 1 0, CaseRange.mk 425 425 1 218 0, CaseRange.mk 428 428 1 1 0,
   CaseRange.mk 430 430 1 218 0, CaseRange.mk 431 431 1 1 0, CaseRange.mk 433 434 1 217 0,
   CaseRange.mk 435 437 2 1 0, CaseRange.mk 439 439 1 219 0, CaseRange.mk 440 440 1 1 0,
   CaseRange.mk 444 444 1 1 0, CaseRange.mk 452 452 1 2 0, CaseRange.mk 453 453 1 1 0,
   CaseRange.mk 455 455 1 2 0, CaseRange.mk 456 456 1 1 0, CaseRange.mk 458 458 1 2 0,
   CaseRange.mk 459 475 2 1 0, CaseRange.mk 478 494 2 1 0, CaseRange.mk 497 497 1 2 0,
   CaseRange.mk 498 500 2 1 0, CaseRange.mk 502 502 1 0 97, CaseRange.mk 503 503 1 0 56,
   CaseRange.mk 504 542 2 1 0, CaseRange.mk 544 544 1 0 130, CaseRange.mk 546 562 2 1 0,
   CaseRange.mk 570 570 1 10795 0, CaseRange.mk 571 571 1 1 0, CaseRange.mk 573 573 1 0 163,
   CaseRange.mk 574 574 1 10792 0, CaseRange.mk 577 577 1 1 0, CaseRange.mk 579 579 1 0 195,
   CaseRange.mk 580 580 1 69 0, CaseRange.mk 581 581 1 71 0, CaseRange.mk 582 590 2 1 0,
   CaseRange.mk 880 882 2 1 0, CaseRange.mk 886 886 1 1 0, CaseRange.mk 895 895 1 116 0,
   CaseRange.mk 902 902 1 38 0, CaseRange.mk 904 906 1 37 0, CaseRange.mk 908 908 1 64 0,
   CaseRange.mk 910 911 1 63 0, CaseRange.mk 913 929 1 32 0, CaseRange.mk 931 939 1 32 0,
   CaseRange.mk 975 975 1 8 0, CaseRange.mk 984 1006 2 1 0, CaseRange.mk 1012 1012 1 0 60,
   CaseRange.mk 1015 1015 1 1 0, CaseRange.mk 1017 1017 1 0 7, CaseRange.mk 1018 1018 1 1 0,
   CaseRange.mk 1021 1023 1 0 130, CaseRange.mk 1024 1039 1 80 0, CaseRange.mk 1040 1071 1 32 0,
   CaseRange.mk 1120 1152 2 1 0, CaseRange.mk 1162 1214 2 1 0, CaseRange.mk 1216 1216 1 15 0,
   CaseRange.mk 1217 1229 2 1 0, CaseRange.mk 1232 1326 2 1 0, CaseRange.mk 1329 1366 1 48 0,
   CaseRange.mk 4256 4293 1 7264 0, CaseRange.mk 4295 4295 1 7264 0,
   CaseRange.mk 4301 4301 1 7264 0, CaseRange.mk 5024 5103 1 38864 0,
   CaseRange.mk 5104 5109 1 8 0, CaseRange.mk 7312 7354 1 0 3008,
   CaseRange.mk 7357 7359 1 0 3008, CaseRange.mk 7680 7828 2 1 0,
   CaseRange.mk 7838 7838 1 0 7615, CaseRange.mk 7840 7934 2 1 0, CaseRange.mk 7944 7951 1 0 8,
   CaseRange.mk 7960 7965 1 0 8, CaseRange.mk 7976 7983 1 0 8, CaseRange.mk 7992 7999 1 0 8,
   CaseRange.mk 8008 8013 1 0 8, CaseRange.mk 8025 8031 2 0 8, CaseRange.mk 8040 8047 1 0 8,
   CaseRange.mk 8072 8079 1 0 8, CaseRange.mk 8088 8095 1 0 8, CaseRange.mk 8104 8111 1 0 8,
   CaseRange.mk 8120 8121 1 0 8, CaseRange.mk 8122 8123 1 0 74, CaseRange.mk 8124 8124 1 0 9,
   CaseRange.mk 8136 8139 1 0 86, CaseRange.mk 8140 8140 1 0 9, CaseRange.mk 8152 8153 1 0 8,
   CaseRange.mk 8154 8155 1 0 100, CaseRange.mk 8168 8169 1 0 8, CaseRange.mk 8170 8171 1 0 112,
   CaseRange.mk 8172 8172 1 0 7, CaseRange.mk 8184 8185 1 0 128, CaseRange.mk 8186 8187 1 0 126,
   CaseRange.mk 8188 8188 1 0 9, CaseRange.mk 8486 8486 1 0 7517,
   CaseRange.mk 8490 8490 1 0 8383, CaseRange.mk 8491 8491 1 0 8262,
   CaseRange.mk 8498 8498 1 28 0, CaseRange.mk 8544 8559 1 16 0, CaseRange.mk 8579 8579 1 1 0,
   CaseRange.mk 9398 9423 1 26 0, CaseRange.mk 11264 11311 1 48 0,
   CaseRange.mk 11360 11360 1 1 0, CaseRange.mk 11362 11362 1 0 10743,
   CaseRange.mk 11363 11363 1 0 3814, CaseRange.mk 11364 11364 1 0 10727,
   CaseRange.mk 11367 11371 2 1 0, CaseRange.mk 11373 11373 1 0 10780,
   CaseRange.mk 11374 11374 1 0 10749, CaseRange.mk 11375 11375 1 0 10783,
   CaseRange.mk 11376 11376 1 0 10782, CaseRange.mk 11378 11378 1 1 0,
   CaseRange.mk 11381 11381 1 1 0, CaseRange.mk 11390 11391 1 0 10815,
   CaseRange.mk 11392 11490 2 1 0, CaseRange.mk 11499 11501 2 1 0,
   CaseRange.mk 11506 11506 1 1 0, CaseRange.mk 42560 42604 2 1 0,
   CaseRange.mk 42624 42650 2 1 0, CaseRange.mk 42786 42798 2 1 0,
   CaseRange.mk 42802 42862 2 1 0, CaseRange.mk 42873 42875 2 1 0,
   CaseRange.mk 42877 42877 1 0 35332, CaseRange.mk 42878 42886 2 1 0,
   CaseRange.mk 42891 42891 1 1 0, CaseRange.mk 42893 42893 1 0 42280,
   CaseRange.mk 42896 42898 2 1 0, CaseRange.mk 42902 42920 2 1 0,
   CaseRange.mk 42922 42922 1 0 42308, CaseRange.mk 42923 42923 1 0 42319,
   CaseRange.mk 42924 42924 1 0 42315, CaseRange.mk 42925 42925 1 0 42305,
   CaseRange.mk 42926 42926 1 0 42308, CaseRange.mk 42928 42928 1 0 42258,
   CaseRange.mk 42929 42929 1 0 42282, CaseRange.mk 42930 42930 1 0 42261,
   CaseRange.mk 42931 42931 1 928 0, CaseRange.mk 42932 42946 2 1 0,
   CaseRange.mk 42948 42948 1 0 48, CaseRange.mk 42949 42949 1 0 42307,
   CaseRange.mk 42950 42950 1 0 35384, CaseRange.mk 42951 42953 2 1 0,
   CaseRange.mk 42960 42960 1 1 0, CaseRange.mk 42966 42968 2 1 0,
   CaseRange.mk 42997 42997 1 1 0, CaseRange.mk 65313 65338 1 32 0,
   CaseRange.mk 66560 66599 1 40 0, CaseRange.mk 66736 66771 1 40 0,
   CaseRange.mk 66928 66938 1 39 0, CaseRange.mk 66940 66954 1 39 0,
   CaseRange.mk 66956 66962 1 39 0, CaseRange.mk 66964 66965 1 39 0,
   CaseRange.mk 68736 68786 1 64 0, CaseRange.mk 71840 71871 1 32 0,
   CaseRange.mk 93760 93791 1 32 0, CaseRange.mk 125184 125217 1 34 0]

/-- The upper-case letters (Unicode 14.0 and 15.0, general category Lu, as in
`unicode.Upper`). -/
def upperRanges : List Range32 :=
  [Range32.mk 65 90 1, Range32.mk 192 214 1, Range32.mk 216 222 1, Range32.mk 256 310 2,
   Range32.mk 313 327 2, Range32.mk 330 376 2, Range32.mk 377 381 2, Range32.mk 385 386 1,
   Range32.mk 388 390 2, Range32.mk 391 393 2, Range32.mk 394 395 1, Range32.mk 398 401 1,
   Range32.mk 403 404 1, Range32.mk 406 408 1, Range32.mk 412 413 1, Range32.mk 415 416 1,
   Range32.mk 418 422 2, Range32.mk 423 425 2, Range32.mk 428 430 2, Range32.mk 431 433 2,
   Range32.mk 434 435 1, Range32.mk 437 439 2, Range32.mk 440 440 1, Range32.mk 444 444 1,
   Range32.mk 452 452 1, Range32.mk 455 455 1, Range32.mk 458 458 1, Range32.mk 461 475 2,
   Range32.mk 478 494 2, Range32.mk 497 497 1, Range32.mk 500 502 2, Range32.mk 503 504 1,
   Range32.mk 506 562 2, Range32.mk 570 571 1, Range32.mk 573 574 1, Range32.mk 577 579 2,
   Range32.mk 580 582 1, Range32.mk 584 590 2, Range32.mk 880 882 2, Range32.mk 886 886 1,
   Range32.mk 895 895 1, Range32.mk 902 904 2, Range32.mk 905 906 1, Range32.mk 908 910 2,
   Range32.mk 911 913 2, Range32.mk 914 929 1, Range32.mk 931 939 1, Range32.mk 975 975 1,
   Range32.mk 978 980 1, Range32.mk 984 1006 2, Range32.mk 1012 1012 1, Range32.mk 1015 1017 2,
   Range32.mk 1018 1018 1, Range32.mk 1021 1071 1, Range32.mk 1120 1152 2,
   Range32.mk 1162 1216 2, Range32.mk 1217 1229 2, Range32.mk 1232 1326 2,
   Range32.mk 1329 1366 1, Range32.mk 4256 4293 1, Range32.mk 4295 4295 1,
   Range32.mk 4301 4301 1, Range32.mk 5024 5109 1, Range32.mk 7312 7354 1,
   Range32.mk 7357 7359 1, Range32.mk 7680 7828 2, Range32.mk 7838 7934 2,
   Range32.mk 7944 7951 1, Range32.mk 7960 7965 1, Range32.mk 7976 7983 1,
   Range32.mk 7992 7999 1, Range32.mk 8008 8013 1, Range32.mk 8025 8031 2,
   Range32.mk 8040 8047 1, Range32.mk 8120 8123 1, Range32.mk 8136 8139 1,
   Range32.mk 8152 8155 1, Range32.mk 8168 8172 1, Range32.mk 8184 8187 1,
   Range32.mk 8450 8450 1, Range32.mk 8455 8455 1, Range32.mk 8459 8461 1,
   Range32.mk 8464 8466 1, Range32.mk 8469 8469 1, Range32.mk 8473 8477 1,
   Range32.mk 8484 8490 2, Range32.mk 8491 8493 1, Range32.mk 8496 8499 1,
   Range32.mk 8510 8511 1, Range32.mk 8517 8517 1, Range32.mk 8579 8579 1,
   Range32.mk 11264 11311 1, Range32.mk 11360 11362 2, Range32.mk 11363 11364 1,
   Range32.mk 11367 11373 2, Range32.mk 11374 11376 1, Range32.mk 11378 11378 1,
   Range32.mk 11381 11381 1, Range32.mk 11390 11392 1, Range32.mk 11394 11490 2,
   Range32.mk 11499 11501 2, Range32.mk 11506 11506 1, Range32.mk 42560 42604 2,
   Range32.mk 42624 42650 2, Range32.mk 42786 42798 2, Range32.mk 42802 42862 2,
   Range32.mk 42873 42877 2, Range32.mk 42878 42886 2, Range32.mk 42891 42893 2,
   Range32.mk 42896 42898 2, Range32.mk 42902 42922 2, Range32.mk 42923 42926 1,
   Range32.mk 42928 42932 1, Range32.mk 42934 42948 2, Range32.mk 42949 42951 1,
   Range32.mk 42953 42953 1, Range32.mk 42960 42960 1, Range32.mk 42966 42968 2,
   Range32.mk 42997 42997 1, Range32.mk 65313 65338 1, Range32.mk 66560 66599 1,
   Range32.mk 66736 66771 1, Range32.mk 66928 66938 1, Range32.mk 66940 66954 1,
   Range32.mk 66956 66962 1, Range32.mk 66964 66965 1, Range32.mk 68736 68786 1,
   Range32.mk 71840 71871 1, Range32.mk 93760 93791 1, Range32.mk 119808 119833 1,
   Range32.mk 119860 119885 1, Range32.mk 119912 119937 1, Range32.mk 119964 119966 2,
   Range32.mk 119967 119967 1, Range32.mk 119970 119970 1, Range32.mk 119973 119974 1,
   Range32.mk 119977 119980 1, Range32.mk 119982 119989 1, Range32.mk 120016 120041 1,
   Range32.mk 120068 120069 1, Range32.mk 120071 120074 1, Range32.mk 120077 120084 1,
   Range32.mk 120086 120092 1, Range32.mk 120120 120121 1, Range32.mk 120123 120126 1,
   Range32.mk 120128 120132 1, Range32.mk 120134 120134 1, Range32.mk 120138 120144 1,
   Range32.mk 120172 120197 1, Range32.mk 120224 120249 1, Range32.mk 120276 120301 1,
   Range32.mk 120328 120353 1, Range32.mk 120380 120405 1, Range32.mk 120432 120457 1,
   Range32.mk 120488 120512 1, Range32.mk 120546 120570 1, Range32.mk 120604 120628 1,
   Range32.mk 120662 120686 1, Range32.mk 120720 120744 1, Range32.mk 120778 120778 1,
   Range32.mk 125184 125217 1]

/-- The lower-case form of a code point. -/
def lowerCode (n : Nat) : Nat :=
  match lowerRanges.find? (fun r => r.has n) with
  | some r => n + r.Add - r.Sub
  | none => n

/-- `unicode.ToLower`: the code point moved by the distance of the range of
`unicode.CaseRanges` it is in, and the code point itself when it is in none. -/
def unicode.ToLower (r : Char) : Char := Char.ofNat (lowerCode r.toNat)

/-- `unicode.IsUpper`. -/
def unicode.IsUpper (r : Char) : Bool := upperRanges.any (fun u => u.has r.toNat)

/-- `strings.ToLower`, on strings that are valid UTF-8: every character is
replaced by its lower-case form. -/
def ToLower (s : String) : String := s.map unicode.ToLower

/-- Whether `n` is a Unicode scalar value. -/
def validCode (n : Nat) : Bool :=
  Nat.blt n 55296 || (Nat.blt 57343 n && Nat.blt n 1114112)

/-- The code points of the range. -/
def CaseRange.points (r : CaseRange) : List Nat :=
  (List.range ((r.Hi - r.Lo) / r.Stride + 1)).map (fun k => r.Lo + k * r.Stride)

/-- Whether no lower-case form of a code point of `r` is in the range `r1`:
the lower-case forms are all below `r1`, or all above it, or none of them is
found in it. -/
def rangeAvoids (r r1 : CaseRange) : Bool :=
  Nat.blt (r.Hi + r.Add - r.Sub) r1.Lo || Nat.blt r1.Hi (r.Lo + r.Add - r.Sub) ||
    r.points.all (fun n => !r1.has (n + r.Add - r.Sub))

/-- Whether the lower-case forms of the code points of `r` are scalar values
that are in no range of `lowerRanges`. -/
def rangeFixed (r : CaseRange) : Bool :=
  r.points.all (fun n => validCode (n + r.Add - r.Sub)) && lowerRanges.all (rangeAvoids r)

/-- `PostgreSQLTranslator.TableName`. -/
def PostgreSQLTranslator.TableName (table : Table) : String := ToLower table.Name

/-- `PostgreSQLTranslator.ColumnName`. -/
def PostgreSQLTranslator.ColumnName (column : Column) : String := ToLower column.Name

/-- `PostgreSQLTranslator.GetPlaceholder`; `strconv.Itoa` is the decimal
rendering, `index+1` wraps around at the 64-bit word. -/
def PostgreSQLTranslator.GetPlaceholder (index : Int) (_name : String) : String :=
  "$" ++ toString ((index + 1 + 2 ^ 63) % 2 ^ 64 - 2 ^ 63)

/-- `PostgreSQLTranslator.GetSqlForInsert`; `StrBuffer.Add` appends its
arguments. -/
def PostgreSQLTranslator.GetSqlForInsert (self : PostgreSQLTranslator) (insert : Insert) :
    String :=
  let sql := self.GenericTranslator.GetSqlForInsert insert
  if !insert.HasKeyValue then
    sql ++ " RETURNING " ++ self.GenericTranslator.overrider.ColumnName insert.Table.SingleKeyColumn
  else
    sql

/-- `NewPostgreSQLTranslator`: `this.Init(this)` makes the new translator its
own overrider. `generic` is the insert rendering of the generic translator,
given the overrider. -/
def NewPostgreSQLTranslator (generic : Translator → Insert → String) :
    PostgreSQLTranslator :=
  let this : Translator :=
    { GetPlaceholder := PostgreSQLTranslator.GetPlaceholder
      TableName := PostgreSQLTranslator.TableName
      ColumnName := PostgreSQLTranslator.ColumnName }
  { GenericTranslator := { overrider := this, GetSqlForInsert := generic this } }

/-- Modelled from the spec: the query descriptor `db.Query` is not among the
sources. It carries the requested limit and skip and the named bind parameters
attached to it; the parameter values bound here are integers. -/
structure Query where
  limit : Int
  skip : Int
  parameters : List (String × Int)
  deriving DecidableEq, Repr

/-- `Query.GetLimit`. -/
def Query.GetLimit (q : Query) : Int := q.limit

/-- `Query.GetSkip`. -/
def Query.GetSkip (q : Query) : Int := q.skip

/-- Modelled from the spec: `Query.SetParameter` attaches `value` to the query
as the bind parameter called `key`, in place of an earlier one of that name. -/
def Query.SetParameter (q : Query) (key : String) (value : Int) : Query :=
  { q with parameters := (key, value) :: q.parameters.filter (fun e => decide (e.1 ≠ key)) }

/-- `PostgreSQLTranslator.PaginateSQL`. The constants `db.LIMIT_PARAM` and
`db.OFFSET_PARAM` are not among the sources and are parameters; the query is
returned with the SQL. -/
def PostgreSQLTranslator.PaginateSQL (LIMIT_PARAM OFFSET_PARAM : String) (query : Query)
    (sql : String) : String × Query :=
  if query.GetLimit > 0 then
    let sb := sql ++ " LIMIT :" ++ LIMIT_PARAM
    let query1 := query.SetParameter LIMIT_PARAM query.GetLimit
    if query1.GetSkip > 0 then
      (sb ++ " OFFSET :" ++ OFFSET_PARAM, query1.SetParameter OFFSET_PARAM query1.GetSkip)
    else
      (sb, query1)
  else
    (sql, query)

/-- The type `db.DmlType`. -/
inductive DmlType where
  | INSERT
  | UPDATE
  | DELETE
  | QUERY
  deriving DecidableEq, Repr

/-- Modelled from the spec: `UpdateBuilder`, which `PgUpdateBuilder` embeds, is
not among the sources. It holds the translator and `columnPart`, the
`column = expression` fragments emitted so far (`AddAsOne` adds the
concatenation of its arguments as one fragment). `Translate` is the method of
the translator that renders an expression token of type `τ`; it may change the
state `σ` of the statement being rendered, for instance by binding a
parameter. -/
structure PgUpdateBuilder (τ σ : Type) where
  translator : Translator
  Translate : DmlType → τ → σ → String × σ
  columnPart : List String
  state : σ

/-- `PgUpdateBuilder.Column`. `values` are the entries of the ordered map, in
the order its iterator gives them. -/
def PgUpdateBuilder.Column {τ σ : Type} (self : PgUpdateBuilder τ σ)
    (values : List (Column × τ)) (tableAlias : String) : PgUpdateBuilder τ σ :=
  match values with
  | [] => self
  | entry :: rest =>
    let column := entry.1
    if !column.Virtual then
      let token := entry.2
      let name := self.translator.ColumnName column
      let text := self.Translate .UPDATE token self.state
      PgUpdateBuilder.Column
        { self with columnPart := self.columnPart ++ [name ++ " = " ++ text.1]
                    state := text.2 }
        rest tableAlias
    else
      PgUpdateBuilder.Column self rest tableAlias

/-- The bindings of `values` whose column is not virtual, in their order. -/
def writable {τ : Type} (values : List (Column × τ)) : List (Column × τ) :=
  values.filter (fun e => !e.1.Virtual)

/-- The texts `Translate(db.UPDATE, token)` returns for the tokens of `tokens`,
called in order from the state `st`, with the state after the last call. -/
def translateAll {τ σ : Type} (Translate : DmlType → τ → σ → String × σ) (st : σ) :
    List τ → List String × σ
  | [] => ([], st)
  | t :: ts =>
    let r := Translate .UPDATE t st
    let rs := translateAll Translate r.2 ts
    (r.1 :: rs.1, rs.2)

/-- The fragment `column = expression` for each binding of `bs`, in order. -/
def fragments {τ σ : Type} (self : PgUpdateBuilder τ σ) (bs : List (Column × τ)) :
    List String :=
  List.zipWith (fun b x => self.translator.ColumnName b.1 ++ " = " ++ x) bs
    (translateAll self.Translate self.state (bs.map Prod.snd)).1

/-- An example program with fields of the same name: `Stamped` embeds `Audit`
and then declares `Version` itself; `Logged` declares `Version` and then embeds
`Audit`; `Deep` embeds `Logged` and then `Extra`, which declares `Version`
too. -/
def clashEnv : TypeEnv :=
  [("Audit", [⟨"Version", "", .plain "int", "audit", false⟩]),
   ("Extra", [⟨"Version", "", .slice (.plain "byte"), "extra", false⟩]),
   ("Stamped", [⟨"Audit", "", .struct "Audit", "", true⟩,
                ⟨"Version", "", .plain "string", "own", false⟩]),
   ("Logged", [⟨"Version", "", .plain "string", "own", false⟩,
               ⟨"Audit", "", .ptr (.struct "Audit"), "", true⟩]),
   ("Deep", [⟨"Logged", "", .struct "Logged", "", true⟩,
             ⟨"Extra", "", .struct "Extra", "", true⟩])]

/-- The relation `embeds env t u`: a call of `walkTreeStruct` on the type `t`
calls `walkTreeStruct` on the type `u`, that is, `t` with one pointer level
removed is a struct type with an exported embedded field of type `u`. -/
def embeds (env : TypeEnv) (t u : RType) : Prop :=
  ∃ n, derefOnce t = .struct n ∧
    ∃ e ∈ env.fields n, e.PkgPath = "" ∧ e.Anonymous = true ∧ e.Typ = u

/-- The types of the fields the struct types of `env` declare. -/
def fieldTypes (env : TypeEnv) : List RType :=
  env.flatMap (fun d => d.2.map StructField.Typ)

/-- The rank of a type, from a rank `rk` of the struct types: non-struct types
have rank 0. -/
def rankOf (rk : String → Nat) (t : RType) : Nat :=
  match derefOnce t with
  | .struct n => rk n + 1
  | _ => 0

/-- Whether every struct type of `env` has a greater rank than the types of its
exported embedded fields. -/
def ranked (env : TypeEnv) (rk : String → Nat) : Bool :=
  env.all (fun d => d.2.all (fun e =>
    !(e.exported && e.Anonymous) || decide (rankOf rk e.Typ < rk d.1 + 1)))

/-- The value of a decimal digit character. -/
def digitVal (c : Char) : Nat := c.toNat - 48

/-- The number a list of decimal digits denotes, most significant digit first. -/
def decodeDigits (cs : List Char) : Nat := cs.foldl (fun a c => a * 10 + digitVal c) 0

/-! ### Examples -/

/-- An example program: `User` embeds `Base`; `UserFlat` declares the fields of
`Base` directly. -/
def exEnv : TypeEnv :=
  [("Base", [⟨"Id", "", .plain "int64", "sql:\"id\"", false⟩,
             ⟨"secret", "main", .plain "string", "", false⟩]),
   ("User", [⟨"Base", "", .struct "Base", "", true⟩,
             ⟨"Name", "", .plain "string", "sql:\"name\"", false⟩,
             ⟨"Tags", "", .slice (.plain "string"), "", false⟩,
             ⟨"Boss", "", .ptr (.struct "User"), "", false⟩,
             ⟨"hidden", "main", .struct "Base", "", true⟩]),
   ("UserFlat", [⟨"Id", "", .plain "int64", "sql:\"id\"", false⟩,
             ⟨"secret", "main", .plain "string", "", false⟩,
             ⟨"Name", "", .plain "string", "sql:\"name\"", false⟩,
             ⟨"Tags", "", .slice (.plain "string"), "", false⟩,
             ⟨"Boss", "", .ptr (.struct "User"), "", false⟩,
             ⟨"hidden", "main", .struct "Base", "", true⟩])]

/-- The descriptor of the field `Tags` of `User`. -/
def exTags : EntityProperty :=
  { FieldName := "Tags", Position := 0, Typ := .slice (.plain "string"),
    InnerType := some (.plain "string"), Key := false, Tag := "" }

/-- The descriptor of the field `Name` of `User`. -/
def exName : EntityProperty :=
  { FieldName := "Name", Position := 0, Typ := .ptr (.plain "string"),
    InnerType := none, Key := false, Tag := "sql:\"name\"" }

/-- The descriptor of the field `Boss` of `User`. -/
def exBoss : EntityProperty :=
  { FieldName := "Boss", Position := 0, Typ := .ptr (.struct "User"),
    InnerType := none, Key := false, Tag := "" }

/-- The descriptor of the field `Id` of `Base`. -/
def exId : EntityProperty :=
  { FieldName := "Id", Position := 0, Typ := .ptr (.plain "int64"),
    InnerType := none, Key := false, Tag := "sql:\"id\"" }

/-- The map `PopulateMapping("u.", reflect.TypeOf(&User{}))` returns. -/
def exMapping : Attrs :=
  [("u.Boss", exBoss), ("u.Tags", exTags), ("u.Name", exName), ("u.Id", exId)]

/-- An example program for `Set` and `Get`: `Doc` embeds `Base` and `*Meta`. -/
def docEnv : TypeEnv :=
  [("Base", [⟨"Id", "", .plain "int64", "", false⟩,
             ⟨"secret", "main", .plain "string", "", false⟩]),
   ("Meta", [⟨"Rev", "", .plain "int", "", false⟩]),
   ("Doc", [⟨"Base", "", .struct "Base", "", true⟩,
            ⟨"Meta", "", .ptr (.struct "Meta"), "", true⟩,
            ⟨"Title", "", .plain "string", "", false⟩,
            ⟨"Any", "", .iface "interface {}", "", false⟩])]

/-- Every type implements the empty interface; the example has no other
interface type. -/
def docImpl (n : String) (_t : RType) : Bool := decide (n = "interface {}")

/-- A `Doc` record whose embedded `*Meta` points to cell 1. -/
def docRecord : Val :=
  .struct "Doc"
    [("Base", .struct "Base" [("Id", .plain "int64" 1), ("secret", .plain "string" 7)]),
     ("Meta", .ptr (.struct "Meta") (some ⟨1, []⟩)),
     ("Title", .plain "string" 3),
     ("Any", .iface "interface {}" none)]

/-- A memory with `docRecord` in cell 0, its `Meta` in cell 1, an `int64` in
cell 2, an `int` in cell 3, a `Doc` record with a nil `*Meta` in cell 4 and a
`string` in cell 5. -/
def docHeap : Heap := fun l =>
  if l = 0 then some docRecord
  else if l = 1 then some (.struct "Meta" [("Rev", .plain "int" 5)])
  else if l = 2 then some (.plain "int64" 42)
  else if l = 3 then some (.plain "int" 9)
  else if l = 4 then
    some (.struct "Doc"
      [("Base", .struct "Base" [("Id", .plain "int64" 1), ("secret", .plain "string" 7)]),
       ("Meta", .ptr (.struct "Meta") none),
       ("Title", .plain "string" 3),
       ("Any", .iface "interface {}" none)])
  else if l = 5 then some (.plain "string" 8)
  else none

/-- The descriptor of the field `Id`, promoted from `Base`. -/
def docId : EntityProperty := newProperty ⟨"Id", "", .plain "int64", "", false⟩

/-- A memory with a `Base` record in cell 0 and an `int64` in cell 1. -/
def exHeap : Heap := fun l =>
  if l = 0 then some (.struct "Base" [("Id", .plain "int64" 1), ("secret", .plain "string" 7)])
  else if l = 1 then some (.plain "int64" 42)
  else none

/-- A program in which `T` embeds `*B`, the field `F` of `B` is a `C`, and the
field `G` of `C` is a `T`. -/
def aliasEnv : TypeEnv :=
  [("T", [⟨"B", "", .ptr (.struct "B"), "", true⟩]),
   ("B", [⟨"F", "", .struct "C", "", false⟩]),
   ("C", [⟨"G", "", .struct "T", "", false⟩])]

/-- A memory with, in cell 1, a `B` whose `F.G` embeds a pointer to the `B`
itself, and in cell 2 a `C` whose `G` embeds a nil pointer. -/
def aliasHeap : Heap := fun l =>
  if l = 1 then
    some (.struct "B"
      [("F", .struct "C" [("G", .struct "T" [("B", .ptr (.struct "B") (some ⟨1, []⟩))])])])
  else if l = 2 then
    some (.struct "C" [("G", .struct "T" [("B", .ptr (.struct "B") none)])])
  else none

/-- The descriptor of the field `F`, promoted from `*B`. -/
def aliasF : EntityProperty := newProperty ⟨"F", "", .struct "C", "", false⟩

/-! ## Lemmas on the map -/

theorem fieldKey_eq (pfx : String) (p : StructField) : fieldKey pfx p = pfx ++ p.Name := by
  unfold fieldKey
  split
  · next hp => subst hp; simp
  · rfl

theorem append_left_cancel (p a b : String) (hab : p ++ a = p ++ b) : a = b := by
  have hd := congrArg String.data hab
  simp only [String.data_append] at hd
  exact String.ext (List.append_cancel_left hd)

theorem Attrs.mem_set (m : Attrs) (k : String) (v : EntityProperty)
    (e : String × EntityProperty) :
    e ∈ m.set k v ↔ e = (k, v) ∨ (e ∈ m ∧ e.1 ≠ k) := by
  simp [Attrs.set, List.mem_filter]

theorem Attrs.mem_keys_set (m : Attrs) (k x : String) (v : EntityProperty) :
    x ∈ (m.set k v).keys ↔ x = k ∨ x ∈ m.keys := by
  simp only [Attrs.keys, List.mem_map, Attrs.mem_set]
  constructor
  · rintro ⟨e, he | ⟨he, _⟩, rfl⟩
    · left; rw [he]
    · right; exact ⟨e, he, rfl⟩
  · rintro (rfl | ⟨e, he, rfl⟩)
    · exact ⟨(x, v), Or.inl rfl, rfl⟩
    · by_cases hk : e.1 = k
      · exact ⟨(k, v), Or.inl rfl, hk.symm⟩
      · exact ⟨e, Or.inr ⟨he, hk⟩, rfl⟩

theorem lookup_filter_ne (m : Attrs) (k x : String) (hx : x ≠ k) :
    (m.filter (fun e => decide (e.1 ≠ k))).lookup x = m.lookup x := by
  induction m with
  | nil => rfl
  | cons e m ih =>
    obtain ⟨a, d⟩ := e
    by_cases ha : a = k
    · subst ha
      have hxa : (x == a) = false := by simpa using hx
      rw [List.filter_cons_of_neg (by simp), ih]
      simp [List.lookup, hxa]
    · rw [List.filter_cons_of_pos (by simpa using ha)]
      by_cases hxa : x = a
      · subst hxa
        simp [List.lookup]
      · have hxa1 : (x == a) = false := by simpa using hxa
        simp only [List.lookup, hxa1, ih]

theorem Attrs.get?_set_self (m : Attrs) (k : String) (v : EntityProperty) :
    (m.set k v).get? k = some v := by
  simp [Attrs.get?, Attrs.set, List.lookup]

theorem Attrs.get?_set_ne (m : Attrs) (k x : String) (v : EntityProperty) (hx : x ≠ k) :
    (m.set k v).get? x = m.get? x := by
  have hxk : (x == k) = false := by simpa using hx
  simp only [Attrs.get?, Attrs.set, List.lookup, hxk]
  exact lookup_filter_ne m k x hx

theorem Attrs.nodup_set (m : Attrs) (k : String) (v : EntityProperty)
    (hm : m.keys.Nodup) : (m.set k v).keys.Nodup := by
  simp only [Attrs.keys, Attrs.set, List.map_cons, List.nodup_cons, List.mem_map,
    List.mem_filter]
  constructor
  · rintro ⟨e, ⟨_, he⟩, hk⟩
    simp at he
    exact he hk
  · exact (List.Nodup.sublist (List.Sublist.map _ (List.filter_sublist m)) hm)

theorem Attrs.len_set_new (m : Attrs) (k : String) (v : EntityProperty)
    (hk : k ∉ m.keys) : (m.set k v).len = m.len + 1 := by
  have hf : m.filter (fun e => decide (e.1 ≠ k)) = m := by
    rw [List.filter_eq_self]
    intro e he
    have : e.1 ≠ k := fun h => hk (by rw [← h]; exact List.mem_map_of_mem _ he)
    simpa using this
  unfold Attrs.len Attrs.set
  rw [hf, List.length_cons]

theorem Attrs.get?_isSome_iff (m : Attrs) (k : String) :
    (∃ d, m.get? k = some d) ↔ k ∈ m.keys := by
  induction m with
  | nil => simp [Attrs.get?, Attrs.keys]
  | cons e m ih =>
    obtain ⟨a, d⟩ := e
    by_cases hka : k = a
    · subst hka
      simp [Attrs.get?, Attrs.keys, List.lookup]
    · have hka1 : (k == a) = false := by simpa using hka
      simp only [Attrs.get?, Attrs.keys, List.lookup, hka1, List.map_cons, List.mem_cons, hka,
        false_or]
      exact ih

/-! ## Lemmas on the loop -/

theorem insertAll_cons (pfx : String) (p : StructField) (fs : List StructField)
    (a : Attrs) :
    insertAll pfx (p :: fs) a = insertAll pfx fs (a.set (fieldKey pfx p) (newProperty p)) :=
  rfl

theorem insertAll_append (pfx : String) (l1 l2 : List StructField) (a : Attrs) :
    insertAll pfx (l1 ++ l2) a = insertAll pfx l2 (insertAll pfx l1 a) := by
  simp [insertAll, List.foldl_append]

theorem walkFields_eq (walk : String → RType → Attrs → Option Attrs)
    (vis : RType → Option (List StructField)) (pfx : String)
    (hw : ∀ t a, walk pfx t a = (vis t).map (fun l => insertAll pfx l a)) :
    ∀ (fs : List StructField) (attrs : Attrs),
      walkFields walk pfx fs attrs
        = (visitFields vis fs).map (fun l => insertAll pfx l attrs) := by
  intro fs
  induction fs with
  | nil => intro attrs; rfl
  | cons p rest ih =>
    intro attrs
    unfold walkFields visitFields
    by_cases hp : p.PkgPath = ""
    · rw [if_pos hp, if_pos hp]
      by_cases ha : p.Anonymous = true
      · rw [if_pos ha, if_pos ha, hw]
        cases hv : vis p.Typ with
        | none => rfl
        | some l =>
          simp only [Option.map_some']
          rw [ih]
          cases visitFields vis rest with
          | none => rfl
          | some l1 => simp [insertAll_append]
      · rw [if_neg ha, if_neg ha, ih]
        cases visitFields vis rest with
        | none => rfl
        | some l1 => simp [insertAll_cons]
    · rw [if_neg hp, if_neg hp]
      exact ih attrs

theorem walkTreeStruct_eq (env : TypeEnv) (pfx : String) :
    ∀ (fuel : Nat) (typ : RType) (attrs : Attrs),
      walkTreeStruct env fuel pfx typ attrs
        = (visited env fuel typ).map (fun l => insertAll pfx l attrs) := by
  intro fuel
  induction fuel with
  | zero => intro typ attrs; rfl
  | succ fuel ih =>
    intro typ attrs
    unfold walkTreeStruct visited
    cases derefOnce typ with
    | struct n => exact walkFields_eq _ _ pfx ih _ _
    | _ => rfl

theorem PopulateMapping_eq (env : TypeEnv) (fuel : Nat) (pfx : String) (typ : RType) :
    PopulateMapping env fuel pfx typ
      = (visited env fuel typ).map (fun l => insertAll pfx l []) :=
  walkTreeStruct_eq env pfx fuel typ []

theorem visitFields_mem (vis : RType → Option (List StructField))
    (P : StructField → Prop) (hv : ∀ t l, vis t = some l → ∀ f ∈ l, P f) :
    ∀ (fs l : List StructField), (∀ f ∈ fs, f.PkgPath = "" → f.Anonymous = false → P f) →
      visitFields vis fs = some l → ∀ f ∈ l, P f := by
  intro fs
  induction fs with
  | nil =>
    intro l _ hl f hf
    simp only [visitFields, Option.some.injEq] at hl
    subst hl
    simp at hf
  | cons p rest ih =>
    intro l hfs hl f hf
    have hrest : ∀ f ∈ rest, f.PkgPath = "" → f.Anonymous = false → P f :=
      fun g hg => hfs g (List.mem_cons_of_mem _ hg)
    unfold visitFields at hl
    by_cases hp : p.PkgPath = ""
    · rw [if_pos hp] at hl
      by_cases ha : p.Anonymous = true
      · rw [if_pos ha] at hl
        cases hvp : vis p.Typ with
        | none => simp [hvp] at hl
        | some l0 =>
          cases hvr : visitFields vis rest with
          | none => simp [hvp, hvr] at hl
          | some l1 =>
            simp only [hvp, hvr, Option.some.injEq] at hl
            subst hl
            rcases List.mem_append.mp hf with h0 | h1
            · exact hv _ _ hvp f h0
            · exact ih l1 hrest hvr f h1
      · rw [if_neg ha] at hl
        cases hvr : visitFields vis rest with
        | none => simp [hvr] at hl
        | some l1 =>
          simp only [hvr, Option.some.injEq] at hl
          subst hl
          rcases List.mem_cons.mp hf with h0 | h1
          · subst h0
            exact hfs f (List.mem_cons_self _ _) hp (by simpa using ha)
          · exact ih l1 hrest hvr f h1
    · rw [if_neg hp] at hl
      exact ih l hrest hl f hf

/-- Every field `walkTreeStruct` builds a descriptor for is an exported field,
not embedded, of some struct type of the environment. -/
theorem visited_mem (env : TypeEnv) :
    ∀ (fuel : Nat) (typ : RType) (l : List StructField), visited env fuel typ = some l →
      ∀ f ∈ l, ∃ n, f ∈ env.fields n ∧ f.PkgPath = "" ∧ f.Anonymous = false := by
  intro fuel
  induction fuel with
  | zero => intro typ l hl; simp [visited] at hl
  | succ fuel ih =>
    intro typ l hl
    unfold visited at hl
    cases hd : derefOnce typ with
    | struct n =>
      simp only [hd] at hl
      exact visitFields_mem _ _ ih _ l (fun f hf hp ha => ⟨n, hf, hp, ha⟩) hl
    | _ =>
      simp only [hd, Option.some.injEq] at hl
      subst hl
      simp

theorem mem_keys_insertAll (pfx : String) (k : String) :
    ∀ (fs : List StructField) (a : Attrs),
      k ∈ (insertAll pfx fs a).keys ↔ k ∈ a.keys ∨ ∃ f ∈ fs, fieldKey pfx f = k := by
  intro fs
  induction fs with
  | nil => intro a; simp [insertAll]
  | cons p rest ih =>
    intro a
    rw [insertAll_cons, ih, Attrs.mem_keys_set]
    constructor
    · rintro ((rfl | h) | ⟨f, hf, rfl⟩)
      · exact Or.inr ⟨p, List.mem_cons_self _ _, rfl⟩
      · exact Or.inl h
      · exact Or.inr ⟨f, List.mem_cons_of_mem _ hf, rfl⟩
    · rintro (h | ⟨f, hf, rfl⟩)
      · exact Or.inl (Or.inr h)
      · rcases List.mem_cons.mp hf with rfl | hf1
        · exact Or.inl (Or.inl rfl)
        · exact Or.inr ⟨f, hf1, rfl⟩

theorem nodup_insertAll (pfx : String) :
    ∀ (fs : List StructField) (a : Attrs), a.keys.Nodup → (insertAll pfx fs a).keys.Nodup := by
  intro fs
  induction fs with
  | nil => intro a ha; exact ha
  | cons p rest ih =>
    intro a ha
    rw [insertAll_cons]
    exact ih _ (Attrs.nodup_set a _ _ ha)

theorem get?_insertAll (pfx : String) (k : String) (d : EntityProperty) :
    ∀ (fs : List StructField) (a : Attrs), (insertAll pfx fs a).get? k = some d →
      a.get? k = some d ∨ ∃ f ∈ fs, fieldKey pfx f = k ∧ d = newProperty f := by
  intro fs
  induction fs with
  | nil => intro a h; exact Or.inl h
  | cons p rest ih =>
    intro a h
    rw [insertAll_cons] at h
    rcases ih _ h with h1 | ⟨f, hf, hk, hd⟩
    · by_cases hkp : k = fieldKey pfx p
      · subst hkp
        rw [Attrs.get?_set_self] at h1
        exact Or.inr ⟨p, List.mem_cons_self _ _, rfl, (Option.some.inj h1).symm⟩
      · rw [Attrs.get?_set_ne _ _ _ _ hkp] at h1
        exact Or.inl h1
    · exact Or.inr ⟨f, List.mem_cons_of_mem _ hf, hk, hd⟩

theorem get?_insertAll_other (pfx : String) (k : String) :
    ∀ (fs : List StructField) (a : Attrs), (∀ f ∈ fs, fieldKey pfx f ≠ k) →
      (insertAll pfx fs a).get? k = a.get? k := by
  intro fs
  induction fs with
  | nil => intro a _; rfl
  | cons p rest ih =>
    intro a h
    rw [insertAll_cons, ih _ (fun f hf => h f (List.mem_cons_of_mem _ hf))]
    exact Attrs.get?_set_ne _ _ _ _ (fun hk => h p (List.mem_cons_self _ _) hk.symm)

theorem fieldKey_inj (pfx : String) (f g : StructField)
    (h : fieldKey pfx f = fieldKey pfx g) : f.Name = g.Name := by
  rw [fieldKey_eq, fieldKey_eq] at h
  exact append_left_cancel pfx _ _ h

theorem get?_insertAll_nodup (pfx : String) :
    ∀ (fs : List StructField) (a : Attrs), (fs.map StructField.Name).Nodup →
      ∀ f ∈ fs, (insertAll pfx fs a).get? (fieldKey pfx f) = some (newProperty f) := by
  intro fs
  induction fs with
  | nil => intro a _ f hf; simp at hf
  | cons p rest ih =>
    intro a hn f hf
    rw [List.map_cons, List.nodup_cons] at hn
    rw [insertAll_cons]
    rcases List.mem_cons.mp hf with rfl | hf1
    · rw [get?_insertAll_other, Attrs.get?_set_self]
      intro g hg hk
      exact hn.1 (by rw [← fieldKey_inj pfx g f hk]; exact List.mem_map_of_mem _ hg)
    · exact ih _ hn.2 f hf1

theorem len_insertAll (pfx : String) :
    ∀ (fs : List StructField) (a : Attrs), (fs.map StructField.Name).Nodup →
      (∀ f ∈ fs, fieldKey pfx f ∉ a.keys) →
      (insertAll pfx fs a).len = a.len + fs.length := by
  intro fs
  induction fs with
  | nil => intro a _ _; rfl
  | cons p rest ih =>
    intro a hn hdis
    rw [List.map_cons, List.nodup_cons] at hn
    rw [insertAll_cons, ih _ hn.2, Attrs.len_set_new _ _ _ (hdis p (List.mem_cons_self _ _)),
      List.length_cons]
    · omega
    · intro f hf hmem
      rw [Attrs.mem_keys_set] at hmem
      rcases hmem with hk | hk
      · exact hn.1 (by rw [← fieldKey_inj pfx f p hk]; exact List.mem_map_of_mem _ hf)
      · exact hdis f (List.mem_cons_of_mem _ hf) hk

theorem filter_exported_cons_pos (p : StructField) (fs : List StructField)
    (hp : p.PkgPath = "") :
    (p :: fs).filter StructField.exported = p :: fs.filter StructField.exported :=
  List.filter_cons_of_pos (by simp [StructField.exported, hp])

theorem filter_exported_cons_neg (p : StructField) (fs : List StructField)
    (hp : ¬ p.PkgPath = "") :
    (p :: fs).filter StructField.exported = fs.filter StructField.exported :=
  List.filter_cons_of_neg (by simp [StructField.exported, hp])

theorem mem_filter_exported (f : StructField) (fs : List StructField) :
    f ∈ fs.filter StructField.exported ↔ f ∈ fs ∧ f.PkgPath = "" := by
  simp [List.mem_filter, StructField.exported]

theorem visitFields_no_anon (vis : RType → Option (List StructField)) :
    ∀ fs : List StructField, (∀ f ∈ fs, f.PkgPath = "" → f.Anonymous = false) →
      visitFields vis fs = some (fs.filter StructField.exported) := by
  intro fs
  induction fs with
  | nil => intro _; rfl
  | cons p rest ih =>
    intro h
    have hr := ih (fun f hf => h f (List.mem_cons_of_mem _ hf))
    unfold visitFields
    by_cases hp : p.PkgPath = ""
    · have ha : ¬ p.Anonymous = true := by
        rw [h p (List.mem_cons_self _ _) hp]; simp
      rw [if_pos hp, if_neg ha, hr, filter_exported_cons_pos p rest hp]
    · rw [if_neg hp, hr, filter_exported_cons_neg p rest hp]

theorem derefOnce_cases (typ : RType) (n : String)
    (htyp : typ = .struct n ∨ typ = .ptr (.struct n)) : derefOnce typ = .struct n := by
  rcases htyp with rfl | rfl <;> rfl

theorem visited_struct (env : TypeEnv) (fuel : Nat) (typ : RType) (n : String)
    (hd : derefOnce typ = .struct n) :
    visited env (fuel + 1) typ = visitFields (visited env fuel) (env.fields n) := by
  simp only [visited, hd]

theorem visited_not_struct (env : TypeEnv) (fuel : Nat) (typ : RType)
    (hd : ∀ n, derefOnce typ ≠ .struct n) : visited env (fuel + 1) typ = some [] := by
  unfold visited
  cases h : derefOnce typ with
  | struct n => exact absurd h (hd n)
  | _ => rfl

theorem descriptor_origin (env : TypeEnv) (fuel : Nat) (pfx : String) (typ : RType)
    (m : Attrs) (k : String) (d : EntityProperty)
    (hm : PopulateMapping env fuel pfx typ = some m) (hd : m.get? k = some d) :
    ∃ n f, f ∈ env.fields n ∧ f.PkgPath = "" ∧ f.Anonymous = false ∧
      k = pfx ++ f.Name ∧ d = newProperty f := by
  rw [PopulateMapping_eq] at hm
  cases hv : visited env fuel typ with
  | none => simp [hv] at hm
  | some l =>
    simp only [hv, Option.map_some', Option.some.injEq] at hm
    subst hm
    rcases get?_insertAll pfx k d l [] hd with h0 | ⟨f, hf, hk, hdf⟩
    · simp [Attrs.get?] at h0
    · obtain ⟨n, hn, hp, ha⟩ := visited_mem env fuel typ l hv f hf
      exact ⟨n, f, hn, hp, ha, by rw [← hk, fieldKey_eq], hdf⟩

theorem addPrefix_set (p k : String) (d : EntityProperty) (a : Attrs) :
    (Attrs.addPrefix p a).set (p ++ k) d = Attrs.addPrefix p (a.set k d) := by
  unfold Attrs.set Attrs.addPrefix
  rw [List.map_cons, List.filter_map]
  congr 2
  apply List.filter_congr
  intro e _
  simp only [Function.comp_apply, decide_eq_decide]
  exact not_congr ⟨fun h => append_left_cancel p _ _ h, fun h => by rw [h]⟩

theorem insertAll_addPrefix (p : String) :
    ∀ (fs : List StructField) (a : Attrs),
      insertAll p fs (Attrs.addPrefix p a) = Attrs.addPrefix p (insertAll "" fs a) := by
  intro fs
  induction fs with
  | nil => intro a; rfl
  | cons f rest ih =>
    intro a
    have hk : fieldKey "" f = f.Name := by simp [fieldKey]
    rw [insertAll_cons, insertAll_cons, fieldKey_eq, addPrefix_set, ih, hk]

theorem get?_addPrefix (p k : String) (m : Attrs) :
    (Attrs.addPrefix p m).get? (p ++ k) = m.get? k := by
  induction m with
  | nil => rfl
  | cons e m ih =>
    obtain ⟨a, d⟩ := e
    unfold Attrs.get? Attrs.addPrefix at *
    by_cases hk : k = a
    · subst hk
      simp [List.lookup]
    · have h1 : (k == a) = false := by simpa using hk
      have h2 : (p ++ k == p ++ a) = false := by
        simp only [beq_eq_false_iff_ne, ne_eq]
        exact fun h => hk (append_left_cancel p _ _ h)
      simp only [List.map_cons, List.lookup, h1, h2]
      exact ih

theorem visitFields_filter (vis : RType → Option (List StructField)) :
    ∀ fs : List StructField,
      visitFields vis fs = visitFields vis (fs.filter StructField.exported) := by
  intro fs
  induction fs with
  | nil => rfl
  | cons p rest ih =>
    by_cases hp : p.PkgPath = ""
    · rw [filter_exported_cons_pos p rest hp]
      unfold visitFields
      rw [← ih]
    · rw [filter_exported_cons_neg p rest hp, ← ih]
      conv => lhs; unfold visitFields
      rw [if_neg hp]

theorem visited_congr (env env1 : TypeEnv)
    (h : ∀ n, (env.fields n).filter StructField.exported
      = (env1.fields n).filter StructField.exported) :
    ∀ (fuel : Nat) (typ : RType), visited env fuel typ = visited env1 fuel typ := by
  intro fuel
  induction fuel with
  | zero => intro typ; rfl
  | succ fuel ih =>
    intro typ
    have hfun : visited env fuel = visited env1 fuel := funext ih
    unfold visited
    cases derefOnce typ with
    | struct n =>
      simp only
      rw [visitFields_filter _ (env.fields n), visitFields_filter _ (env1.fields n), h n, hfun]
    | _ => rfl

theorem fields_stripPrivate (env : TypeEnv) (n : String) :
    (stripPrivate env).fields n = (env.fields n).filter StructField.exported := by
  unfold TypeEnv.fields stripPrivate
  induction env with
  | nil => rfl
  | cons d env ih =>
    obtain ⟨k, fs⟩ := d
    by_cases hk : n = k
    · subst hk
      simp [List.lookup]
    · have h1 : (n == k) = false := by simpa using hk
      simp only [List.map_cons, List.lookup, h1]
      exact ih

/-- C3: for a struct type `n` none of whose fields is embedded, given as the
struct or as a pointer to it, `PopulateMapping` with the empty prefix returns a
map whose keys are exactly the names of the exported fields of `n`, each key
once, every descriptor carrying its key as `FieldName`; when the exported
fields have distinct names (as Go requires) the map has as many entries as
there are exported fields and the entry of each is its own descriptor. -/
theorem PopulateMapping_no_embedded (env : TypeEnv) (n : String) (fuel : Nat) (typ : RType)
    (htyp : typ = .struct n ∨ typ = .ptr (.struct n))
    (hno : ∀ f ∈ env.fields n, f.Anonymous = false) :
    ∃ m, PopulateMapping env (fuel + 1) "" typ = some m ∧
      (∀ k, k ∈ m.keys ↔ ∃ f ∈ env.fields n, f.PkgPath = "" ∧ f.Name = k) ∧
      m.keys.Nodup ∧
      (∀ k d, m.get? k = some d → d.FieldName = k) ∧
      ((((env.fields n).filter StructField.exported).map StructField.Name).Nodup →
        m.len = ((env.fields n).filter StructField.exported).length ∧
        ∀ f ∈ env.fields n, f.PkgPath = "" → m.get? f.Name = some (newProperty f)) := by
  have hv : visited env (fuel + 1) typ = some ((env.fields n).filter StructField.exported) := by
    rw [visited_struct env fuel typ n (derefOnce_cases typ n htyp)]
    exact visitFields_no_anon _ _ (fun f hf _ => hno f hf)
  have hkey : ∀ f : StructField, fieldKey "" f = f.Name := fun f => by simp [fieldKey]
  refine ⟨insertAll "" ((env.fields n).filter StructField.exported) [], ?_, ?_, ?_, ?_, ?_⟩
  · rw [PopulateMapping_eq, hv]; rfl
  · intro k
    rw [mem_keys_insertAll]
    simp only [Attrs.keys, List.map_nil, List.not_mem_nil, false_or, mem_filter_exported, hkey]
    constructor
    · rintro ⟨f, ⟨hf, hp⟩, hk⟩; exact ⟨f, hf, hp, hk⟩
    · rintro ⟨f, hf, hp, hk⟩; exact ⟨f, ⟨hf, hp⟩, hk⟩
  · exact nodup_insertAll "" _ [] List.nodup_nil
  · intro k d hd
    rcases get?_insertAll "" k d _ [] hd with h0 | ⟨f, _, hk, hdf⟩
    · simp [Attrs.get?] at h0
    · rw [hdf, ← hk, hkey]; rfl
  · intro hnd
    constructor
    · rw [len_insertAll "" _ [] hnd (fun f _ hmem => by simp [Attrs.keys] at hmem)]
      simp [Attrs.len]
    · intro f hf hp
      have := get?_insertAll_nodup "" _ [] hnd f ((mem_filter_exported f _).mpr ⟨hf, hp⟩)
      rwa [hkey] at this

/-- C8: `PopulateMapping` (and `PopulateMappingOf`, for a value with a dynamic
type) returns the empty map, for every prefix, when the type with one pointer
level removed is not a struct type, when it is a struct type without fields,
and when it is a struct type none of whose fields is exported. -/
theorem PopulateMapping_empty (env : TypeEnv) (fuel : Nat) (pfx : String) (typ : RType)
    (h : (∀ n, derefOnce typ ≠ .struct n) ∨
         (∃ n, derefOnce typ = .struct n ∧ env.fields n = []) ∨
         (∃ n, derefOnce typ = .struct n ∧ ∀ f ∈ env.fields n, f.PkgPath ≠ "")) :
    PopulateMapping env (fuel + 1) pfx typ = some [] ∧
    PopulateMappingOf env (fuel + 1) pfx (some typ) = some [] := by
  have hv : visited env (fuel + 1) typ = some [] := by
    rcases h with h | ⟨n, hd, hf⟩ | ⟨n, hd, hf⟩
    · exact visited_not_struct env fuel typ h
    · rw [visited_struct env fuel typ n hd, hf]; rfl
    · rw [visited_struct env fuel typ n hd,
        visitFields_no_anon _ _ (fun f hm hp => absurd hp (hf f hm))]
      congr 1
      rw [List.filter_eq_nil_iff]
      intro f hm
      simpa [StructField.exported] using hf f hm
  have hp : PopulateMapping env (fuel + 1) pfx typ = some [] := by
    rw [PopulateMapping_eq, hv]; rfl
  exact ⟨hp, hp⟩

/-- C6: every descriptor of a map returned by `PopulateMapping` was built for
an exported, not embedded field `f` of a struct type; its `InnerType` is set,
and `IsMany` is true, exactly when the declared kind of `f` is slice or array,
and `InnerType` is then the element type of the type of `f`; for a field of
plain kind `IsMany` is false. -/
theorem descriptor_InnerType (env : TypeEnv) (fuel : Nat) (pfx : String) (typ : RType)
    (m : Attrs) (k : String) (d : EntityProperty)
    (hm : PopulateMapping env fuel pfx typ = some m) (hd : m.get? k = some d) :
    ∃ n f, f ∈ env.fields n ∧ f.PkgPath = "" ∧ f.Anonymous = false ∧
      k = pfx ++ f.Name ∧ d.FieldName = f.Name ∧
      (d.InnerType ≠ none ↔ (f.Typ.Kind = .Slice ∨ f.Typ.Kind = .Array)) ∧
      (d.IsMany = true ↔ (f.Typ.Kind = .Slice ∨ f.Typ.Kind = .Array)) ∧
      ((f.Typ.Kind = .Slice ∨ f.Typ.Kind = .Array) →
        ∃ e, f.Typ.Elem = some e ∧ d.InnerType = some e) ∧
      (f.Typ.Kind = .Plain → d.IsMany = false) := by
  obtain ⟨n, f, hf, hp, ha, hk, rfl⟩ := descriptor_origin env fuel pfx typ m k d hm hd
  refine ⟨n, f, hf, hp, ha, hk, rfl, ?_, ?_, ?_, ?_⟩ <;>
    cases hft : f.Typ <;>
    simp [newProperty, EntityProperty.IsMany, RType.Kind, RType.Elem, hft]

/-- C7: every descriptor of a map returned by `PopulateMapping` was built for
an exported, not embedded field `f` of a struct type; its `Type` is the
declared type of `f` when the kind of that type is pointer, slice or array, and
the pointer to it otherwise, so that the kind of `Type` is pointer, slice or
array. -/
theorem descriptor_Type (env : TypeEnv) (fuel : Nat) (pfx : String) (typ : RType)
    (m : Attrs) (k : String) (d : EntityProperty)
    (hm : PopulateMapping env fuel pfx typ = some m) (hd : m.get? k = some d) :
    ∃ n f, f ∈ env.fields n ∧ f.PkgPath = "" ∧ f.Anonymous = false ∧
      k = pfx ++ f.Name ∧ d.FieldName = f.Name ∧
      ((f.Typ.Kind = .Ptr ∨ f.Typ.Kind = .Slice ∨ f.Typ.Kind = .Array) → d.Typ = f.Typ) ∧
      (¬ (f.Typ.Kind = .Ptr ∨ f.Typ.Kind = .Slice ∨ f.Typ.Kind = .Array) →
        d.Typ = PtrTo f.Typ) ∧
      (d.Typ.Kind = .Ptr ∨ d.Typ.Kind = .Slice ∨ d.Typ.Kind = .Array) := by
  obtain ⟨n, f, hf, hp, ha, hk, rfl⟩ := descriptor_origin env fuel pfx typ m k d hm hd
  refine ⟨n, f, hf, hp, ha, hk, rfl, ?_, ?_, ?_⟩ <;>
    cases hft : f.Typ <;>
    simp [newProperty, PtrTo, RType.Kind, hft]

/-- C5: unexported fields contribute nothing to the map returned by
`PopulateMapping`. Two type environments that agree on the exported fields of
every struct type, whatever their unexported fields are (names, types, embedded
or not), give the same result for every type and prefix; and each key of a
returned map is the prefix followed by the name of an exported, not embedded
field. -/
theorem private_fields_ignored (env env1 : TypeEnv) (fuel : Nat) (pfx : String)
    (typ : RType)
    (h : ∀ n, (env.fields n).filter StructField.exported
      = (env1.fields n).filter StructField.exported) :
    PopulateMapping env fuel pfx typ = PopulateMapping env1 fuel pfx typ ∧
    ∀ m k, PopulateMapping env fuel pfx typ = some m → k ∈ m.keys →
      ∃ n f, f ∈ env.fields n ∧ f.PkgPath = "" ∧ f.Anonymous = false ∧
        k = pfx ++ f.Name := by
  constructor
  · rw [PopulateMapping_eq, PopulateMapping_eq, visited_congr env env1 h]
  · intro m k hm hk
    obtain ⟨d, hd⟩ := (Attrs.get?_isSome_iff m k).mpr hk
    obtain ⟨n, f, hf, hp, ha, hkf, _⟩ := descriptor_origin env fuel pfx typ m k d hm hd
    exact ⟨n, f, hf, hp, ha, hkf⟩

/-- C9: for every type and prefix `p`, the map built with prefix `p` is the map
built with the empty prefix with `p` put in front of every key: the keys are `p`
followed by the unprefixed keys, the descriptor under `p ++ k` is the descriptor
under `k` (its `FieldName` is the bare field name `k`), and both maps have the
same number of entries. -/
theorem PopulateMapping_prefixed (env : TypeEnv) (fuel : Nat) (p : String) (typ : RType) :
    PopulateMapping env fuel p typ
      = (PopulateMapping env fuel "" typ).map (Attrs.addPrefix p) ∧
    ∀ m0, PopulateMapping env fuel "" typ = some m0 →
      ∃ mp, PopulateMapping env fuel p typ = some mp ∧
        mp.keys = m0.keys.map (fun k => p ++ k) ∧
        (∀ k, mp.get? (p ++ k) = m0.get? k) ∧
        (∀ k d, m0.get? k = some d → d.FieldName = k) ∧
        mp.len = m0.len := by
  have heq : PopulateMapping env fuel p typ
      = (PopulateMapping env fuel "" typ).map (Attrs.addPrefix p) := by
    rw [PopulateMapping_eq, PopulateMapping_eq]
    cases visited env fuel typ with
    | none => rfl
    | some l =>
      simp only [Option.map_some']
      exact congrArg some (insertAll_addPrefix p l [])
  refine ⟨heq, ?_⟩
  intro m0 hm0
  refine ⟨Attrs.addPrefix p m0, by rw [heq, hm0]; rfl, ?_, ?_, ?_, ?_⟩
  · simp [Attrs.keys, Attrs.addPrefix]
  · intro k; exact get?_addPrefix p k m0
  · intro k d hd
    obtain ⟨_, f, _, _, _, hk, rfl⟩ := descriptor_origin env fuel "" typ m0 k d hm0 hd
    simp [hk, newProperty]
  · simp [Attrs.len, Attrs.addPrefix]

/-! ## Lemmas on values and memory -/

theorem sameShape_refl (a : Option Val) : sameShape a a := Or.inl rfl

/-- C1: when `value` holds a nil pointer, `Set` returns false and the memory,
hence the instance with all its fields, is what it was before the call; this
for every descriptor and every instance. -/
theorem Set_nil_pointer (d : EntityProperty) (env : TypeEnv) (impl : String → RType → Bool)
    (h : Heap) (inst value : Value) (e : RType)
    (hnil : value.load h = some (.ptr e none)) :
    d.Set env impl h inst value = some (false, h) := by
  simp [EntityProperty.Set, Value.Kind, Value.IsNil, hnil, Val.Kind]

theorem Set_nil_pointer_witness :
    (Value.direct (.ptr (.plain "int64") none) ⟨false, false⟩).load exHeap
      = some (.ptr (.plain "int64") none) ∧
    exId.Set exEnv (fun _ _ => false) exHeap
        (.direct (.ptr (.struct "Base") (some ⟨0, []⟩)) ⟨false, false⟩)
        (.direct (.ptr (.plain "int64") none) ⟨false, false⟩)
      = some (false, exHeap) :=
  ⟨rfl, Set_nil_pointer exId exEnv _ exHeap _ _ (.plain "int64") rfl⟩

/-- The condition of `Set_then_Get` on the places read cannot be dropped: the
record at `⟨1, ["F", "G"]⟩` reaches its field `F` through an embedded pointer
that is stored inside that field; `Set` returns true, and the following `Get`
panics on the nil pointer that `Set` has stored there. -/
theorem Set_then_Get_aliased :
    ∃ h1, aliasF.Set aliasEnv docImpl aliasHeap
        (.direct (.ptr (.struct "T") (some ⟨1, ["F", "G"]⟩)) ⟨false, false⟩)
        (.direct (.ptr (.struct "C") (some ⟨2, []⟩)) ⟨false, false⟩) = some (true, h1) ∧
      aliasF.Get aliasEnv aliasHeap
        (.direct (.ptr (.struct "T") (some ⟨1, ["F", "G"]⟩)) ⟨false, false⟩)
        = some (.place ⟨1, ["F"]⟩ ⟨false, false⟩) ∧
      aliasF.Get aliasEnv h1
        (.direct (.ptr (.struct "T") (some ⟨1, ["F", "G"]⟩)) ⟨false, false⟩) = none :=
  ⟨_, rfl, rfl, rfl⟩

/-- A field that is not exported is read-only, and a value of another type is
not assignable: `Set` panics for the field `secret` of `Base`, and for an
`int` stored into the field `Id` of type `int64`. -/
theorem Set_checks :
    (newProperty ⟨"secret", "main", .plain "string", "", false⟩).Get docEnv docHeap
        (.direct (.ptr (.struct "Doc") (some ⟨0, []⟩)) ⟨false, false⟩)
      = some (.place ⟨0, ["Base", "secret"]⟩ ⟨true, false⟩) ∧
    (newProperty ⟨"secret", "main", .plain "string", "", false⟩).Set docEnv docImpl docHeap
        (.direct (.ptr (.struct "Doc") (some ⟨0, []⟩)) ⟨false, false⟩)
        (.direct (.ptr (.plain "string") (some ⟨5, []⟩)) ⟨false, false⟩) = none ∧
    docId.Set docEnv docImpl docHeap
        (.direct (.ptr (.struct "Doc") (some ⟨0, []⟩)) ⟨false, false⟩)
        (.direct (.ptr (.plain "int") (some ⟨3, []⟩)) ⟨false, false⟩) = none :=
  ⟨rfl, rfl, rfl⟩

/-! ## Instances of the theorems on the example program -/

theorem PopulateMapping_no_embedded_witness :
    ∃ m, PopulateMapping exEnv 1 "" (.ptr (.struct "Base")) = some m ∧
      (∀ k, k ∈ m.keys ↔ ∃ f ∈ exEnv.fields "Base", f.PkgPath = "" ∧ f.Name = k) ∧
      m.keys.Nodup ∧
      (∀ k d, m.get? k = some d → d.FieldName = k) ∧
      ((((exEnv.fields "Base").filter StructField.exported).map StructField.Name).Nodup →
        m.len = ((exEnv.fields "Base").filter StructField.exported).length ∧
        ∀ f ∈ exEnv.fields "Base", f.PkgPath = "" → m.get? f.Name = some (newProperty f)) :=
  PopulateMapping_no_embedded exEnv "Base" 0 (.ptr (.struct "Base")) (Or.inr rfl)
    (by decide)

theorem private_fields_ignored_witness :
    PopulateMapping exEnv 3 "u." (.struct "User")
      = PopulateMapping (stripPrivate exEnv) 3 "u." (.struct "User") ∧
    PopulateMapping exEnv 3 "u." (.struct "User") = some exMapping :=
  ⟨(private_fields_ignored exEnv (stripPrivate exEnv) 3 "u." (.struct "User")
      (fun n => by rw [fields_stripPrivate, List.filter_filter]; simp)).1,
    by decide⟩

theorem descriptor_InnerType_witness :
    PopulateMapping exEnv 2 "u." (.ptr (.struct "User")) = some exMapping ∧
    exMapping.get? "u.Tags" = some exTags ∧
    ∃ n f, f ∈ exEnv.fields n ∧ f.PkgPath = "" ∧ f.Anonymous = false ∧
      "u.Tags" = "u." ++ f.Name ∧ exTags.FieldName = f.Name ∧
      (exTags.InnerType ≠ none ↔ (f.Typ.Kind = .Slice ∨ f.Typ.Kind = .Array)) ∧
      (exTags.IsMany = true ↔ (f.Typ.Kind = .Slice ∨ f.Typ.Kind = .Array)) ∧
      ((f.Typ.Kind = .Slice ∨ f.Typ.Kind = .Array) →
        ∃ e, f.Typ.Elem = some e ∧ exTags.InnerType = some e) ∧
      (f.Typ.Kind = .Plain → exTags.IsMany = false) :=
  ⟨by decide, by decide,
    descriptor_InnerType exEnv 2 "u." (.ptr (.struct "User")) exMapping "u.Tags" exTags
      (by decide) (by decide)⟩

theorem descriptor_Type_witness :
    PopulateMapping exEnv 2 "u." (.ptr (.struct "User")) = some exMapping ∧
    exMapping.get? "u.Name" = some exName ∧
    ∃ n f, f ∈ exEnv.fields n ∧ f.PkgPath = "" ∧ f.Anonymous = false ∧
      "u.Name" = "u." ++ f.Name ∧ exName.FieldName = f.Name ∧
      ((f.Typ.Kind = .Ptr ∨ f.Typ.Kind = .Slice ∨ f.Typ.Kind = .Array) →
        exName.Typ = f.Typ) ∧
      (¬ (f.Typ.Kind = .Ptr ∨ f.Typ.Kind = .Slice ∨ f.Typ.Kind = .Array) →
        exName.Typ = PtrTo f.Typ) ∧
      (exName.Typ.Kind = .Ptr ∨ exName.Typ.Kind = .Slice ∨ exName.Typ.Kind = .Array) :=
  ⟨by decide, by decide,
    descriptor_Type exEnv 2 "u." (.ptr (.struct "User")) exMapping "u.Name" exName
      (by decide) (by decide)⟩

theorem PopulateMapping_empty_witness :
    PopulateMapping exEnv 1 "u." (.ptr (.ptr (.struct "User"))) = some [] ∧
    PopulateMappingOf exEnv 1 "u." (some (.ptr (.ptr (.struct "User")))) = some [] :=
  PopulateMapping_empty exEnv 0 "u." (.ptr (.ptr (.struct "User")))
    (Or.inl (fun n h => by simp [derefOnce] at h))

/-! ## PostgreSQLTranslator -/

/-- C10: when `HasKeyValue` is false, `PostgreSQLTranslator.GetSqlForInsert`
returns the insert SQL of the generic translator followed by `" RETURNING "`
and the name of the single key column as the overrider's `ColumnName` renders
it, which for a translator made by `NewPostgreSQLTranslator` is
`PostgreSQLTranslator.ColumnName`; when `HasKeyValue` is true it returns the
insert SQL of the generic translator unchanged. -/
theorem GetSqlForInsert_returning (t : PostgreSQLTranslator) (insert : Insert)
    (generic : Translator → Insert → String) :
    (insert.HasKeyValue = false →
      t.GetSqlForInsert insert
        = t.GenericTranslator.GetSqlForInsert insert ++ " RETURNING "
          ++ t.GenericTranslator.overrider.ColumnName insert.Table.SingleKeyColumn) ∧
    (insert.HasKeyValue = false →
      (NewPostgreSQLTranslator generic).GetSqlForInsert insert
        = (NewPostgreSQLTranslator generic).GenericTranslator.GetSqlForInsert insert
          ++ " RETURNING "
          ++ PostgreSQLTranslator.ColumnName insert.Table.SingleKeyColumn) ∧
    (insert.HasKeyValue = true →
      t.GetSqlForInsert insert = t.GenericTranslator.GetSqlForInsert insert) := by
  refine ⟨?_, ?_, ?_⟩ <;> intro h <;>
    simp [PostgreSQLTranslator.GetSqlForInsert, NewPostgreSQLTranslator, h]

theorem lookup_filter_ne_int (ps : List (String × Int)) (k x : String) (hx : x ≠ k) :
    (ps.filter (fun e => decide (e.1 ≠ k))).lookup x = ps.lookup x := by
  induction ps with
  | nil => rfl
  | cons e ps ih =>
    obtain ⟨a, d⟩ := e
    by_cases ha : a = k
    · subst ha
      have hxa : (x == a) = false := by simpa using hx
      rw [List.filter_cons_of_neg (by simp), ih]
      simp [List.lookup, hxa]
    · rw [List.filter_cons_of_pos (by simpa using ha)]
      by_cases hxa : x = a
      · subst hxa
        simp [List.lookup]
      · have hxa1 : (x == a) = false := by simpa using hxa
        simp only [List.lookup, hxa1, ih]

theorem Query.lookup_SetParameter_self (q : Query) (k : String) (v : Int) :
    (q.SetParameter k v).parameters.lookup k = some v := by
  simp [Query.SetParameter, List.lookup]

theorem Query.lookup_SetParameter_ne (q : Query) (k x : String) (v : Int) (hx : x ≠ k) :
    (q.SetParameter k v).parameters.lookup x = q.parameters.lookup x := by
  have hxk : (x == k) = false := by simpa using hx
  simp only [Query.SetParameter, List.lookup, hxk]
  exact lookup_filter_ne_int q.parameters k x hx

/-- C11: for a query with `limit > 0`, `PaginateSQL` returns the SQL followed
by `" LIMIT :"` and the name of the limit parameter, and binds the limit under
that name on the query. When `skip > 0` it also appends `" OFFSET :"` and the
name of the offset parameter and binds the skip under it; when `skip ≤ 0` it
appends and binds nothing more. Parameters of other names keep their binding,
and on a query without parameters (the two names being different) exactly one
parameter is bound when `skip ≤ 0` and exactly two when `skip > 0`. -/
theorem PaginateSQL_limit (LIMIT_PARAM OFFSET_PARAM : String) (q : Query) (sql : String)
    (hl : q.limit > 0) :
    (q.skip ≤ 0 →
      PostgreSQLTranslator.PaginateSQL LIMIT_PARAM OFFSET_PARAM q sql
        = (sql ++ " LIMIT :" ++ LIMIT_PARAM, q.SetParameter LIMIT_PARAM q.limit)) ∧
    (q.skip > 0 →
      PostgreSQLTranslator.PaginateSQL LIMIT_PARAM OFFSET_PARAM q sql
        = (sql ++ " LIMIT :" ++ LIMIT_PARAM ++ " OFFSET :" ++ OFFSET_PARAM,
           (q.SetParameter LIMIT_PARAM q.limit).SetParameter OFFSET_PARAM q.skip)) ∧
    (LIMIT_PARAM ≠ OFFSET_PARAM →
      (PostgreSQLTranslator.PaginateSQL LIMIT_PARAM OFFSET_PARAM q sql).2.parameters.lookup
        LIMIT_PARAM = some q.limit) ∧
    (q.skip > 0 →
      (PostgreSQLTranslator.PaginateSQL LIMIT_PARAM OFFSET_PARAM q sql).2.parameters.lookup
        OFFSET_PARAM = some q.skip) ∧
    (∀ k, k ≠ LIMIT_PARAM → (k ≠ OFFSET_PARAM ∨ q.skip ≤ 0) →
      (PostgreSQLTranslator.PaginateSQL LIMIT_PARAM OFFSET_PARAM q sql).2.parameters.lookup k
        = q.parameters.lookup k) ∧
    (q.parameters = [] → LIMIT_PARAM ≠ OFFSET_PARAM →
      (PostgreSQLTranslator.PaginateSQL LIMIT_PARAM OFFSET_PARAM q sql).2.parameters.length
        = if q.skip > 0 then 2 else 1) := by
  have hl1 : q.GetLimit > 0 := hl
  by_cases hs : q.skip > 0
  · have hs1 : (q.SetParameter LIMIT_PARAM q.GetLimit).GetSkip > 0 := hs
    have hp : PostgreSQLTranslator.PaginateSQL LIMIT_PARAM OFFSET_PARAM q sql
        = (sql ++ " LIMIT :" ++ LIMIT_PARAM ++ " OFFSET :" ++ OFFSET_PARAM,
           (q.SetParameter LIMIT_PARAM q.limit).SetParameter OFFSET_PARAM q.skip) := by
      unfold PostgreSQLTranslator.PaginateSQL
      rw [if_pos hl1]
      simp only [if_pos hs1]
      rfl
    rw [hp]
    refine ⟨fun h => absurd hs (not_lt.mpr h), fun _ => rfl, ?_, ?_, ?_, ?_⟩
    · intro hne
      rw [Query.lookup_SetParameter_ne _ _ _ _ hne, Query.lookup_SetParameter_self]
    · intro _
      exact Query.lookup_SetParameter_self _ _ _
    · intro k hk hko
      rcases hko with hko | hko
      · rw [Query.lookup_SetParameter_ne _ _ _ _ hko, Query.lookup_SetParameter_ne _ _ _ _ hk]
      · exact absurd hs (not_lt.mpr hko)
    · intro hq hne
      simp [Query.SetParameter, hq, hne, hs]
  · have hs1 : ¬ (q.SetParameter LIMIT_PARAM q.GetLimit).GetSkip > 0 := hs
    have hp : PostgreSQLTranslator.PaginateSQL LIMIT_PARAM OFFSET_PARAM q sql
        = (sql ++ " LIMIT :" ++ LIMIT_PARAM, q.SetParameter LIMIT_PARAM q.limit) := by
      unfold PostgreSQLTranslator.PaginateSQL
      rw [if_pos hl1]
      simp only [if_neg hs1]
      rfl
    rw [hp]
    refine ⟨fun _ => rfl, fun h => absurd h hs, ?_, fun h => absurd h hs, ?_, ?_⟩
    · intro _
      exact Query.lookup_SetParameter_self _ _ _
    · intro k hk _
      exact Query.lookup_SetParameter_ne _ _ _ _ hk
    · intro hq _
      simp [Query.SetParameter, hq, hs]

theorem PaginateSQL_limit_witness :
    PostgreSQLTranslator.PaginateSQL "limit" "offset" ⟨10, 0, []⟩ "SELECT * FROM t"
      = ("SELECT * FROM t LIMIT :limit", ⟨10, 0, [("limit", 10)]⟩) ∧
    PostgreSQLTranslator.PaginateSQL "limit" "offset" ⟨10, 5, []⟩ "SELECT * FROM t"
      = ("SELECT * FROM t LIMIT :limit OFFSET :offset",
         ⟨10, 5, [("offset", 5), ("limit", 10)]⟩) ∧
    (PostgreSQLTranslator.PaginateSQL "limit" "offset" ⟨10, 0, []⟩
      "SELECT * FROM t").2.parameters.length = (if (0 : Int) > 0 then 2 else 1) ∧
    (PostgreSQLTranslator.PaginateSQL "limit" "offset" ⟨10, 5, []⟩
      "SELECT * FROM t").2.parameters.length = (if (5 : Int) > 0 then 2 else 1) :=
  ⟨by decide, by decide,
    (PaginateSQL_limit "limit" "offset" ⟨10, 0, []⟩ "SELECT * FROM t" (by decide)).2.2.2.2.2
      rfl (by decide),
    (PaginateSQL_limit "limit" "offset" ⟨10, 5, []⟩ "SELECT * FROM t" (by decide)).2.2.2.2.2
      rfl (by decide)⟩

/-- C16: for a query with `limit ≤ 0`, `PaginateSQL` returns the SQL unchanged
and the query as it was, so that no parameter is bound, whatever `skip` is. -/
theorem PaginateSQL_no_limit (LIMIT_PARAM OFFSET_PARAM : String) (q : Query) (sql : String)
    (hl : q.limit ≤ 0) :
    PostgreSQLTranslator.PaginateSQL LIMIT_PARAM OFFSET_PARAM q sql = (sql, q) := by
  have hl1 : ¬ q.GetLimit > 0 := not_lt.mpr hl
  unfold PostgreSQLTranslator.PaginateSQL
  rw [if_neg hl1]

theorem PaginateSQL_no_limit_witness :
    PostgreSQLTranslator.PaginateSQL "limit" "offset" ⟨0, 5, [("id", 7)]⟩ "SELECT * FROM t"
      = ("SELECT * FROM t", ⟨0, 5, [("id", 7)]⟩) :=
  PaginateSQL_no_limit "limit" "offset" ⟨0, 5, [("id", 7)]⟩ "SELECT * FROM t" (by decide)

theorem translateAll_length {τ σ : Type} (Translate : DmlType → τ → σ → String × σ) :
    ∀ (ts : List τ) (st : σ), (translateAll Translate st ts).1.length = ts.length := by
  intro ts
  induction ts with
  | nil => intro st; rfl
  | cons t ts ih => intro st; simp [translateAll, ih]

theorem Column_eq {τ σ : Type} (tableAlias : String) :
    ∀ (values : List (Column × τ)) (self : PgUpdateBuilder τ σ),
      self.Column values tableAlias
        = { self with
            columnPart := self.columnPart ++ fragments self (writable values)
            state := (translateAll self.Translate self.state
              ((writable values).map Prod.snd)).2 } := by
  intro values
  induction values with
  | nil =>
    intro self
    simp [PgUpdateBuilder.Column, writable, fragments, translateAll]
  | cons entry rest ih =>
    intro self
    unfold PgUpdateBuilder.Column
    by_cases hv : entry.1.Virtual = true
    · have hw : writable (entry :: rest) = writable rest := by
        unfold writable
        exact List.filter_cons_of_neg (by simp [hv])
      simp only [hv, Bool.not_true, Bool.false_eq_true, if_false, hw]
      exact ih self
    · have hw : writable (entry :: rest) = entry :: writable rest := by
        unfold writable
        exact List.filter_cons_of_pos (by simpa using hv)
      have hv1 : entry.1.Virtual = false := by simpa using hv
      simp only [hv1, Bool.not_false, if_true, hw]
      rw [ih]
      simp [fragments, translateAll, List.append_assoc]

/-- C12: `PgUpdateBuilder.Column` leaves the builder as the bindings whose
column is not virtual, taken in the order given, leave it: `columnPart` gets
one fragment `column = expression` for each of them, in that order, after the
fragments it had, and `Translate` is called for their tokens only, in that
order. A binding whose column is virtual adds no fragment and causes no call of
`ColumnName` or `Translate`. -/
theorem Column_skips_virtual {τ σ : Type} (self : PgUpdateBuilder τ σ)
    (values : List (Column × τ)) (tableAlias : String) :
    (self.Column values tableAlias).columnPart
      = self.columnPart ++ fragments self (writable values) ∧
    (fragments self (writable values)).length = (writable values).length ∧
    (∀ i (hi : i < (writable values).length),
      ∃ x, (fragments self (writable values))[i]?
        = some (self.translator.ColumnName ((writable values).get ⟨i, hi⟩).1 ++ " = " ++ x)) ∧
    (self.Column values tableAlias).state
      = (translateAll self.Translate self.state ((writable values).map Prod.snd)).2 ∧
    self.Column values tableAlias = self.Column (writable values) tableAlias ∧
    (∀ b ∈ writable values, b ∈ values ∧ b.1.Virtual = false) ∧
    (writable values).Sublist values := by
  have hlen : (fragments self (writable values)).length = (writable values).length := by
    simp [fragments, translateAll_length]
  refine ⟨by rw [Column_eq], hlen, ?_, by rw [Column_eq], ?_, ?_, List.filter_sublist _⟩
  · intro i hi
    have hi1 : i < (translateAll self.Translate self.state
        ((writable values).map Prod.snd)).1.length := by
      rw [translateAll_length]; simpa using hi
    refine ⟨(translateAll self.Translate self.state
        ((writable values).map Prod.snd)).1.get ⟨i, hi1⟩, ?_⟩
    simp [fragments, List.getElem?_zipWith, List.getElem?_eq_getElem hi,
      List.getElem?_eq_getElem hi1]
  · rw [Column_eq, Column_eq]
    have hww : writable (writable values) = writable values := by
      simp [writable, List.filter_filter]
    rw [hww]
  · intro b hb
    have := List.mem_filter.mp hb
    exact ⟨this.1, by simpa using this.2⟩

/-! ## Decimal rendering and lower-casing -/

theorem digitVal_digitChar : ∀ k, k < 10 → digitVal (Nat.digitChar k) = k := by decide

theorem digitChar_ne_minus : ∀ k, k < 10 → Nat.digitChar k ≠ '-' := by decide

theorem decodeDigits_snoc (l : List Char) (d : Char) :
    decodeDigits (l ++ [d]) = decodeDigits l * 10 + digitVal d := by
  simp [decodeDigits, List.foldl_append]

theorem toDigitsCore_spec :
    ∀ (fuel n : Nat) (ds : List Char), n < fuel →
      ∃ l, Nat.toDigitsCore 10 fuel n ds = l ++ ds ∧ decodeDigits l = n ∧
        (∀ c ∈ l, c ≠ '-') ∧ l ≠ [] := by
  intro fuel
  induction fuel with
  | zero => intro n ds h; omega
  | succ fuel ih =>
    intro n ds h
    have hm : n % 10 < 10 := Nat.mod_lt _ (by decide)
    by_cases h0 : n / 10 = 0
    · refine ⟨[Nat.digitChar (n % 10)], ?_, ?_, ?_, by simp⟩
      · simp [Nat.toDigitsCore, h0]
      · have : n % 10 = n := by omega
        simp only [decodeDigits, List.foldl, Nat.zero_mul, Nat.zero_add]
        rw [digitVal_digitChar _ hm]
        exact this
      · intro c hc
        simp only [List.mem_singleton] at hc
        rw [hc]
        exact digitChar_ne_minus _ hm
    · obtain ⟨l, hl, hd, hc, _⟩ := ih (n / 10) (Nat.digitChar (n % 10) :: ds) (by omega)
      refine ⟨l ++ [Nat.digitChar (n % 10)], ?_, ?_, ?_, by simp⟩
      · simp [Nat.toDigitsCore, h0, hl]
      · rw [decodeDigits_snoc, hd, digitVal_digitChar _ hm]
        omega
      · intro c hcm
        rcases List.mem_append.mp hcm with h1 | h1
        · exact hc c h1
        · simp only [List.mem_singleton] at h1
          rw [h1]
          exact digitChar_ne_minus _ hm

theorem repr_spec (n : Nat) :
    decodeDigits (Nat.repr n).data = n ∧ (∀ c ∈ (Nat.repr n).data, c ≠ '-') ∧
      (Nat.repr n).data ≠ [] := by
  obtain ⟨l, hl, hd, hc, hne⟩ := toDigitsCore_spec (n + 1) n [] (Nat.lt_succ_self n)
  have : (Nat.repr n).data = l := by
    simp [Nat.repr, Nat.toDigits, hl, List.asString]
  rw [this]
  exact ⟨hd, hc, hne⟩

theorem toString_int_inj (a b : Int) (h : toString a = toString b) : a = b := by
  cases a with
  | ofNat m =>
    cases b with
    | ofNat k =>
      have h1 : Nat.repr m = Nat.repr k := h
      have := congrArg (fun s => decodeDigits s.data) h1
      simp only [(repr_spec m).1, (repr_spec k).1] at this
      rw [this]
    | negSucc k =>
      have h1 : Nat.repr m = "-" ++ Nat.repr (k + 1) := h
      have h2 := congrArg String.data h1
      rw [String.data_append] at h2
      obtain ⟨_, hc, hne⟩ := repr_spec m
      exfalso
      cases hd : (Nat.repr m).data with
      | nil => exact hne hd
      | cons c cs =>
        rw [hd] at h2
        have hcm : c = '-' := by
          have := List.head_eq_of_cons_eq h2
          exact this
        exact hc c (by rw [hd]; exact List.mem_cons_self _ _) hcm
  | negSucc m =>
    cases b with
    | ofNat k =>
      have h1 : "-" ++ Nat.repr (m + 1) = Nat.repr k := h
      have h2 := congrArg String.data h1
      rw [String.data_append] at h2
      obtain ⟨_, hc, hne⟩ := repr_spec k
      exfalso
      cases hd : (Nat.repr k).data with
      | nil => exact hne hd
      | cons c cs =>
        rw [hd] at h2
        have hcm : '-' = c := List.head_eq_of_cons_eq h2
        exact hc c (by rw [hd]; exact List.mem_cons_self _ _) hcm.symm
    | negSucc k =>
      have h1 : "-" ++ Nat.repr (m + 1) = "-" ++ Nat.repr (k + 1) := h
      have h2 := congrArg String.data h1
      simp only [String.data_append] at h2
      have h3 := List.append_cancel_left h2
      have := congrArg decodeDigits h3
      simp only [(repr_spec (m+1)).1, (repr_spec (k+1)).1] at this
      have : m = k := by omega
      rw [this]
theorem all_of_chunks {α : Type} (p : α → Bool) (k : Nat) :
    ∀ (m : Nat) (l : List α), l.length ≤ k * m →
      (∀ i, i < m → ((l.drop (k * i)).take k).all p = true) → l.all p = true
  | 0, l, hl, _ => by
    have : l = [] := List.length_eq_zero.mp (by omega)
    rw [this]
    rfl
  | m + 1, l, hl, h => by
    have h0 := h 0 (by omega)
    rw [Nat.mul_zero, List.drop_zero] at h0
    have ih := all_of_chunks p k m (l.drop k)
      (by rw [List.length_drop, Nat.mul_succ] at *; omega)
      (fun i hi => by
        have := h (i + 1) (by omega)
        rw [Nat.mul_succ, Nat.add_comm, ← List.drop_drop] at this
        exact this)
    rw [← List.take_append_drop k l, List.all_append, h0, ih]
    rfl

theorem lowerRanges_fixed_0 :
    ((lowerRanges.drop (16 * 0)).take 16).all rangeFixed = true := by decide!

theorem lowerRanges_fixed_1 :
    ((lowerRanges.drop (16 * 1)).take 16).all rangeFixed = true := by decide!

theorem lowerRanges_fixed_2 :
    ((lowerRanges.drop (16 * 2)).take 16).all rangeFixed = true := by decide!

theorem lowerRanges_fixed_3 :
    ((lowerRanges.drop (16 * 3)).take 16).all rangeFixed = true := by decide!

theorem lowerRanges_fixed_4 :
    ((lowerRanges.drop (16 * 4)).take 16).all rangeFixed = true := by decide!

theorem lowerRanges_fixed_5 :
    ((lowerRanges.drop (16 * 5)).take 16).all rangeFixed = true := by decide!

theorem lowerRanges_fixed_6 :
    ((lowerRanges.drop (16 * 6)).take 16).all rangeFixed = true := by decide!

theorem lowerRanges_fixed_7 :
    ((lowerRanges.drop (16 * 7)).take 16).all rangeFixed = true := by decide!

theorem lowerRanges_fixed_8 :
    ((lowerRanges.drop (16 * 8)).take 16).all rangeFixed = true := by decide!

theorem lowerRanges_fixed_9 :
    ((lowerRanges.drop (16 * 9)).take 16).all rangeFixed = true := by decide!

theorem lowerRanges_fixed_10 :
    ((lowerRanges.drop (16 * 10)).take 16).all rangeFixed = true := by decide!

theorem lowerRanges_fixed_11 :
    ((lowerRanges.drop (16 * 11)).take 16).all rangeFixed = true := by decide!

/-- The lower-case form of a code point of a range of `lowerRanges` is a scalar
value that is in no range of `lowerRanges`. -/
theorem lowerRanges_fixed : lowerRanges.all rangeFixed = true := by
  apply all_of_chunks rangeFixed 16 12 lowerRanges (by decide!)
  intro i hi
  interval_cases i
  · exact lowerRanges_fixed_0
  · exact lowerRanges_fixed_1
  · exact lowerRanges_fixed_2
  · exact lowerRanges_fixed_3
  · exact lowerRanges_fixed_4
  · exact lowerRanges_fixed_5
  · exact lowerRanges_fixed_6
  · exact lowerRanges_fixed_7
  · exact lowerRanges_fixed_8
  · exact lowerRanges_fixed_9
  · exact lowerRanges_fixed_10
  · exact lowerRanges_fixed_11

theorem CaseRange.has_iff (r : CaseRange) (n : Nat) :
    r.has n = true ↔ r.Lo ≤ n ∧ n ≤ r.Hi ∧ (n - r.Lo) % r.Stride = 0 := by
  simp [CaseRange.has, Nat.ble_eq, and_assoc]

theorem CaseRange.mem_points (r : CaseRange) (n : Nat) (hn : r.has n = true) :
    n ∈ r.points := by
  obtain ⟨h1, h2, h3⟩ := (CaseRange.has_iff r n).mp hn
  have hk : (n - r.Lo) / r.Stride < (r.Hi - r.Lo) / r.Stride + 1 :=
    Nat.lt_succ_of_le (Nat.div_le_div_right (by omega))
  have hn1 : r.Lo + (n - r.Lo) / r.Stride * r.Stride = n := by
    have := Nat.div_add_mod (n - r.Lo) r.Stride
    rw [h3, Nat.add_zero, Nat.mul_comm] at this
    omega
  unfold CaseRange.points
  exact List.mem_map.mpr ⟨_, List.mem_range.mpr hk, hn1⟩

theorem lowerCode_of_has (r : CaseRange) (n : Nat) (hr : r ∈ lowerRanges)
    (hn : r.has n = true) :
    validCode (n + r.Add - r.Sub) = true ∧
      ∀ r1 ∈ lowerRanges, r1.has (n + r.Add - r.Sub) = false := by
  have hfix := List.all_eq_true.mp lowerRanges_fixed r hr
  unfold rangeFixed at hfix
  rw [Bool.and_eq_true] at hfix
  obtain ⟨hv, hall⟩ := hfix
  have hmem := CaseRange.mem_points r n hn
  obtain ⟨h1, h2, _⟩ := (CaseRange.has_iff r n).mp hn
  refine ⟨List.all_eq_true.mp hv n hmem, fun r1 hr1 => ?_⟩
  have ha := List.all_eq_true.mp hall r1 hr1
  unfold rangeAvoids at ha
  rw [Bool.or_eq_true, Bool.or_eq_true] at ha
  rw [Bool.eq_false_iff, Ne, CaseRange.has_iff]
  rcases ha with (ha | ha) | ha
  · have : r.Hi + r.Add - r.Sub < r1.Lo := by simpa [Nat.blt_eq] using ha
    omega
  · have : r1.Hi < r.Lo + r.Add - r.Sub := by simpa [Nat.blt_eq] using ha
    omega
  · have := List.all_eq_true.mp ha n hmem
    rw [Bool.not_eq_true', Bool.eq_false_iff, Ne, CaseRange.has_iff] at this
    exact this

theorem lowerCode_spec (n : Nat) :
    (lowerCode n = n ∨ ∃ r ∈ lowerRanges, r.has n = true ∧ lowerCode n = n + r.Add - r.Sub) := by
  unfold lowerCode
  cases hf : lowerRanges.find? (fun r => r.has n) with
  | none => exact Or.inl rfl
  | some r =>
    have hm := List.mem_of_find?_eq_some hf
    have hp := List.find?_some hf
    exact Or.inr ⟨r, hm, hp, rfl⟩

theorem lowerCode_fixed_of_none (n : Nat) (h : ∀ r ∈ lowerRanges, r.has n = false) :
    lowerCode n = n := by
  unfold lowerCode
  have : lowerRanges.find? (fun r => r.has n) = none := by
    rw [List.find?_eq_none]
    intro r hr
    simp [h r hr]
  rw [this]

theorem lowerCode_idem (n : Nat) : lowerCode (lowerCode n) = lowerCode n := by
  rcases lowerCode_spec n with h | ⟨r, hr, hn, h⟩
  · rw [h, h]
  · rw [h]
    exact lowerCode_fixed_of_none _ (lowerCode_of_has r n hr hn).2

theorem validCode_iff (n : Nat) : validCode n = true ↔ n.isValidChar := by
  simp [validCode, Nat.isValidChar, Nat.blt_eq]

theorem lowerCode_valid (n : Nat) (h : n.isValidChar) : (lowerCode n).isValidChar := by
  rcases lowerCode_spec n with h1 | ⟨r, hr, hn, h1⟩
  · rw [h1]; exact h
  · rw [h1]
    exact (validCode_iff _).mp (lowerCode_of_has r n hr hn).1

theorem toNat_ofNat_valid (n : Nat) (h : n.isValidChar) : (Char.ofNat n).toNat = n := by
  unfold Char.ofNat
  rw [dif_pos h]
  rfl

theorem unicode.toNat_ToLower (c : Char) : (unicode.ToLower c).toNat = lowerCode c.toNat :=
  toNat_ofNat_valid _ (lowerCode_valid _ c.valid)

theorem unicode.ToLower_idem (c : Char) :
    unicode.ToLower (unicode.ToLower c) = unicode.ToLower c := by
  have h := unicode.toNat_ToLower c
  unfold unicode.ToLower at h ⊢
  rw [h, lowerCode_idem]

theorem lowerCode_ascii : ∀ k, k < 26 → lowerCode (65 + k) = 97 + k := by decide!

theorem unicode.ToLower_ascii_upper (c : Char) (h : c.isUpper = true) :
    unicode.ToLower c ≠ c := by
  intro heq
  have h1 := congrArg Char.toNat heq
  rw [unicode.toNat_ToLower] at h1
  have hc : 65 ≤ c.toNat ∧ c.toNat ≤ 90 := by
    simp only [Char.isUpper, Bool.and_eq_true, decide_eq_true_eq, ge_iff_le] at h
    exact ⟨UInt32.le_def.mp h.1, UInt32.le_def.mp h.2⟩
  have h2 := lowerCode_ascii (c.toNat - 65) (by omega)
  have h3 : 65 + (c.toNat - 65) = c.toNat := by omega
  rw [h3] at h2
  omega

theorem ToLower_data (s : String) : (ToLower s).data = s.data.map unicode.ToLower := by
  unfold ToLower
  rw [String.map_eq]

theorem wrap_inj (i j : Int) (hi : -2 ^ 63 ≤ i ∧ i < 2 ^ 63) (hj : -2 ^ 63 ≤ j ∧ j < 2 ^ 63)
    (h : (i + 1 + 2 ^ 63) % 2 ^ 64 - 2 ^ 63 = (j + 1 + 2 ^ 63) % 2 ^ 64 - 2 ^ 63) : i = j := by
  omega

/-- C13: for indices `i ≠ j` of the 64-bit `int` type and any names,
`GetPlaceholder(i, n)` and `GetPlaceholder(j, m)` are different texts, `i+1`
and `j+1` being computed with wrap-around. -/
theorem GetPlaceholder_injective (i j : Int) (n m : String)
    (hi : -2 ^ 63 ≤ i ∧ i < 2 ^ 63) (hj : -2 ^ 63 ≤ j ∧ j < 2 ^ 63) (hne : i ≠ j) :
    PostgreSQLTranslator.GetPlaceholder i n ≠ PostgreSQLTranslator.GetPlaceholder j m := by
  intro h
  unfold PostgreSQLTranslator.GetPlaceholder at h
  exact hne (wrap_inj i j hi hj (toString_int_inj _ _ (append_left_cancel "$" _ _ h)))

theorem GetPlaceholder_injective_witness :
    PostgreSQLTranslator.GetPlaceholder 1 "x" ≠ PostgreSQLTranslator.GetPlaceholder 2 "x" :=
  GetPlaceholder_injective 1 2 "x" "x" (by decide) (by decide) (by decide)

/-- C14: for an index `i ≥ 0` with `i+1` representable in the 64-bit `int`
type, `GetPlaceholder(i, name)` is `"$"` followed by the decimal rendering of
`i+1` (a digit string that denotes `i+1`), whatever `name` is. -/
theorem GetPlaceholder_ordinal (i : Int) (name : String) (h0 : 0 ≤ i)
    (h1 : i + 1 < 2 ^ 63) :
    PostgreSQLTranslator.GetPlaceholder i name = "$" ++ toString (i + 1) ∧
    toString (i + 1) = Nat.repr (i + 1).toNat ∧
    ((decodeDigits (toString (i + 1)).data : Nat) : Int) = i + 1 ∧
    ∀ other : String,
      PostgreSQLTranslator.GetPlaceholder i other
        = PostgreSQLTranslator.GetPlaceholder i name := by
  have hw : (i + 1 + 2 ^ 63) % 2 ^ 64 - 2 ^ 63 = i + 1 := by omega
  have hs : toString (i + 1) = Nat.repr (i + 1).toNat := by
    obtain ⟨k, hk⟩ := Int.eq_ofNat_of_zero_le (by omega : 0 ≤ i + 1)
    rw [hk]
    rfl
  refine ⟨by unfold PostgreSQLTranslator.GetPlaceholder; rw [hw], hs, ?_, fun _ => rfl⟩
  rw [hs, (repr_spec _).1]
  omega

theorem GetPlaceholder_ordinal_witness :
    PostgreSQLTranslator.GetPlaceholder 0 "id" = "$1" ∧
    PostgreSQLTranslator.GetPlaceholder 11 "name" = "$" ++ toString ((11 : Int) + 1) :=
  ⟨by decide, (GetPlaceholder_ordinal 11 "name" (by decide) (by decide)).1⟩

/-- The lower-case forms of `ÉCOLE Übung`, character by character. -/
theorem ToLower_example :
    (ToLower "ÉCOLE Übung").data = "école übung".data ∧
    (ToLower "Order_Items2").data = "order_items2".data := by
  rw [ToLower_data, ToLower_data]
  decide!

/-- C17 (as stated, refuted): the name `ℕ` (U+2115, DOUBLE-STRUCK CAPITAL N) is
an upper-case letter without a lower-case form; `TableName` and `ColumnName`
return it unchanged, so the name they return has an upper-case letter. -/
theorem names_keep_upper :
    unicode.IsUpper (Char.ofNat 8469) = true ∧
    (PostgreSQLTranslator.TableName ⟨String.mk [Char.ofNat 8469], ⟨"id", false⟩⟩).data
      = [Char.ofNat 8469] ∧
    (PostgreSQLTranslator.ColumnName ⟨String.mk [Char.ofNat 8469], false⟩).data
      = [Char.ofNat 8469] ∧
    (∃ c ∈ (PostgreSQLTranslator.TableName
        ⟨String.mk [Char.ofNat 8469], ⟨"id", false⟩⟩).data, unicode.IsUpper c = true) ∧
    (∃ c ∈ (PostgreSQLTranslator.ColumnName ⟨String.mk [Char.ofNat 8469], false⟩).data,
      unicode.IsUpper c = true) := by
  have hu : unicode.IsUpper (Char.ofNat 8469) = true := by decide!
  have hl : unicode.ToLower (Char.ofNat 8469) = Char.ofNat 8469 := by decide!
  have hd : ∀ s : String, s.data = [Char.ofNat 8469] →
      (ToLower s).data = [Char.ofNat 8469] := by
    intro s hs
    rw [ToLower_data, hs, List.map_cons, List.map_nil, hl]
  have ht := hd (String.mk [Char.ofNat 8469]) rfl
  exact ⟨hu, ht, ht, ⟨_, by rw [PostgreSQLTranslator.TableName, ht]; exact List.mem_singleton_self _, hu⟩,
    ⟨_, by rw [PostgreSQLTranslator.ColumnName, ht]; exact List.mem_singleton_self _, hu⟩⟩

/-- C17 (amended): `PostgreSQLTranslator.TableName` and `ColumnName` return the
name of the table or column with every character replaced by its lower-case
form, in the same order. No character of the result has a lower-case form
other than itself, none is one of the letters `A` to `Z`, and lower-casing the
result again leaves it unchanged. -/
theorem names_lower_cased (table : Table) (column : Column) :
    (PostgreSQLTranslator.TableName table).data = table.Name.data.map unicode.ToLower ∧
    (PostgreSQLTranslator.ColumnName column).data = column.Name.data.map unicode.ToLower ∧
    (∀ c ∈ (PostgreSQLTranslator.TableName table).data,
      unicode.ToLower c = c ∧ c.isUpper = false) ∧
    (∀ c ∈ (PostgreSQLTranslator.ColumnName column).data,
      unicode.ToLower c = c ∧ c.isUpper = false) ∧
    ToLower (PostgreSQLTranslator.TableName table) = PostgreSQLTranslator.TableName table ∧
    ToLower (PostgreSQLTranslator.ColumnName column)
      = PostgreSQLTranslator.ColumnName column := by
  have hup : ∀ s : String, ∀ c ∈ (ToLower s).data,
      unicode.ToLower c = c ∧ c.isUpper = false := by
    intro s c hc
    rw [ToLower_data, List.mem_map] at hc
    obtain ⟨a, _, rfl⟩ := hc
    refine ⟨unicode.ToLower_idem a, ?_⟩
    cases hu : (unicode.ToLower a).isUpper with
    | false => rfl
    | true => exact absurd (unicode.ToLower_idem a) (unicode.ToLower_ascii_upper _ hu)
  have hid : ∀ s : String, ToLower (ToLower s) = ToLower s := by
    intro s
    apply String.ext
    rw [ToLower_data, ToLower_data, List.map_map]
    apply List.map_congr_left
    intro a _
    exact unicode.ToLower_idem a
  exact ⟨ToLower_data _, ToLower_data _, hup _, hup _, hid _, hid _⟩

/-! ## Position and clashing names -/

/-- C15 (as stated, refuted): in `UserFlat` the field `Name` is the third
declared field (ordinal 2 counting from 0, 3 counting from 1), and the
descriptor `PopulateMapping` builds for it has `Position` 0. -/
theorem Position_not_ordinal :
    ∃ m d f, PopulateMapping exEnv 1 "" (.struct "UserFlat") = some m ∧
      (exEnv.fields "UserFlat")[2]? = some f ∧ f.Name = "Name" ∧
      m.get? "Name" = some d ∧ d.FieldName = f.Name ∧
      d.Position = 0 ∧ d.Position ≠ 2 ∧ d.Position ≠ 3 :=
  ⟨[("Boss", exBoss), ("Tags", exTags), ("Name", exName), ("Id", exId)], exName,
    ⟨"Name", "", .plain "string", "sql:\"name\"", false⟩,
    by decide, by decide, rfl, by decide, rfl, rfl, by decide, by decide⟩

/-- C15 (amended): every descriptor of a map returned by `PopulateMapping` has
`Position` 0, the zero value, whatever the place of its field in the struct:
the mapping builder does not assign `Position`. -/
theorem Position_zero (env : TypeEnv) (fuel : Nat) (pfx : String) (typ : RType)
    (m : Attrs) (k : String) (d : EntityProperty)
    (hm : PopulateMapping env fuel pfx typ = some m) (hd : m.get? k = some d) :
    d.Position = 0 := by
  obtain ⟨_, f, _, _, _, _, rfl⟩ := descriptor_origin env fuel pfx typ m k d hm hd
  rfl

theorem Position_zero_witness : exTags.Position = 0 :=
  Position_zero exEnv 2 "u." (.ptr (.struct "User")) exMapping "u.Tags" exTags
    (by decide) (by decide)

/-- C18: let `walkTreeStruct` build descriptors for the fields `l1 ++ g :: l2`
in this order (the order of declaration, the fields of an embedded struct
standing in the place of the embedded field, at any depth), no field after
`g` having the name of `g`. Then the map holds each key once, and the
descriptor under the key of `g` is the descriptor of `g`, whichever fields of
that name came before it. -/
theorem last_field_wins (env : TypeEnv) (fuel : Nat) (pfx : String) (typ : RType)
    (l1 l2 : List StructField) (g : StructField)
    (hv : visited env fuel typ = some (l1 ++ g :: l2))
    (hlast : ∀ f ∈ l2, f.Name ≠ g.Name) :
    ∃ m, PopulateMapping env fuel pfx typ = some m ∧
      m.keys.Nodup ∧
      m.keys.count (pfx ++ g.Name) = 1 ∧
      m.get? (pfx ++ g.Name) = some (newProperty g) ∧
      ∀ f ∈ l1, f.Name = g.Name → m.get? (pfx ++ f.Name) = some (newProperty g) := by
  have hget : (insertAll pfx (l1 ++ g :: l2) []).get? (pfx ++ g.Name)
      = some (newProperty g) := by
    rw [insertAll_append, insertAll_cons, get?_insertAll_other, fieldKey_eq,
      Attrs.get?_set_self]
    intro f hf hk
    rw [← fieldKey_eq] at hk
    exact hlast f hf (fieldKey_inj pfx f g hk)
  have hnd := nodup_insertAll pfx (l1 ++ g :: l2) [] List.nodup_nil
  refine ⟨insertAll pfx (l1 ++ g :: l2) [], by rw [PopulateMapping_eq, hv]; rfl, hnd, ?_,
    hget, ?_⟩
  · apply List.count_eq_one_of_mem hnd
    exact (Attrs.get?_isSome_iff _ _).mp ⟨_, hget⟩
  · intro f _ hfg
    rw [hfg]
    exact hget

theorem last_field_wins_witness :
    (∃ m, PopulateMapping clashEnv 2 "" (.struct "Stamped") = some m ∧
      m.keys.Nodup ∧ m.keys.count ("" ++ "Version") = 1 ∧
      m.get? ("" ++ "Version")
        = some (newProperty ⟨"Version", "", .plain "string", "own", false⟩) ∧
      ∀ f ∈ [(⟨"Version", "", .plain "int", "audit", false⟩ : StructField)],
        f.Name = "Version" → m.get? ("" ++ f.Name)
          = some (newProperty ⟨"Version", "", .plain "string", "own", false⟩)) ∧
    (∃ m, PopulateMapping clashEnv 2 "" (.struct "Logged") = some m ∧
      m.keys.Nodup ∧ m.keys.count ("" ++ "Version") = 1 ∧
      m.get? ("" ++ "Version")
        = some (newProperty ⟨"Version", "", .plain "int", "audit", false⟩) ∧
      ∀ f ∈ [(⟨"Version", "", .plain "string", "own", false⟩ : StructField)],
        f.Name = "Version" → m.get? ("" ++ f.Name)
          = some (newProperty ⟨"Version", "", .plain "int", "audit", false⟩)) ∧
    (∃ m, PopulateMapping clashEnv 3 "" (.struct "Deep") = some m ∧
      m.keys.Nodup ∧ m.keys.count ("" ++ "Version") = 1 ∧
      m.get? ("" ++ "Version")
        = some (newProperty ⟨"Version", "", .slice (.plain "byte"), "extra", false⟩) ∧
      ∀ f ∈ [(⟨"Version", "", .plain "string", "own", false⟩ : StructField),
             ⟨"Version", "", .plain "int", "audit", false⟩],
        f.Name = "Version" → m.get? ("" ++ f.Name)
          = some (newProperty ⟨"Version", "", .slice (.plain "byte"), "extra", false⟩)) :=
  ⟨last_field_wins clashEnv 2 "" (.struct "Stamped")
      [⟨"Version", "", .plain "int", "audit", false⟩] []
      ⟨"Version", "", .plain "string", "own", false⟩ (by decide) (by decide),
    last_field_wins clashEnv 2 "" (.struct "Logged")
      [⟨"Version", "", .plain "string", "own", false⟩] []
      ⟨"Version", "", .plain "int", "audit", false⟩ (by decide) (by decide),
    last_field_wins clashEnv 3 "" (.struct "Deep")
      [⟨"Version", "", .plain "string", "own", false⟩,
       ⟨"Version", "", .plain "int", "audit", false⟩] []
      ⟨"Version", "", .slice (.plain "byte"), "extra", false⟩ (by decide) (by decide)⟩

/-! ## Termination -/

theorem fields_mem_env (env : TypeEnv) (n : String) (e : StructField)
    (he : e ∈ env.fields n) : ∃ d ∈ env, d.1 = n ∧ e ∈ d.2 := by
  unfold TypeEnv.fields at he
  induction env with
  | nil => simp at he
  | cons d env ih =>
    obtain ⟨k, fs⟩ := d
    by_cases hk : n = k
    · subst hk
      simp only [List.lookup, beq_self_eq_true, Option.getD_some] at he
      exact ⟨(n, fs), List.mem_cons_self _ _, rfl, he⟩
    · have h1 : (n == k) = false := by simpa using hk
      simp only [List.lookup, h1] at he
      obtain ⟨d, hd, hd1, hd2⟩ := ih he
      exact ⟨d, List.mem_cons_of_mem _ hd, hd1, hd2⟩

theorem embeds_mem_fieldTypes (env : TypeEnv) (t u : RType) (h : embeds env t u) :
    u ∈ fieldTypes env := by
  obtain ⟨n, _, e, he, _, _, rfl⟩ := h
  obtain ⟨d, hd, _, hed⟩ := fields_mem_env env n e he
  unfold fieldTypes
  exact List.mem_flatMap.mpr ⟨d, hd, List.mem_map_of_mem _ hed⟩

theorem visitFields_mono (vis vis1 : RType → Option (List StructField))
    (h : ∀ t l, vis t = some l → vis1 t = some l) :
    ∀ (fs l : List StructField), visitFields vis fs = some l →
      visitFields vis1 fs = some l := by
  intro fs
  induction fs with
  | nil => intro l hl; exact hl
  | cons p rest ih =>
    intro l hl
    unfold visitFields at hl ⊢
    by_cases hp : p.PkgPath = ""
    · rw [if_pos hp] at hl ⊢
      by_cases ha : p.Anonymous = true
      · rw [if_pos ha] at hl ⊢
        cases hv : vis p.Typ with
        | none => simp [hv] at hl
        | some l0 =>
          cases hr : visitFields vis rest with
          | none => simp [hv, hr] at hl
          | some l1 =>
            simp only [hv, hr] at hl
            simp only [h _ _ hv, ih l1 hr]
            exact hl
      · rw [if_neg ha] at hl ⊢
        cases hr : visitFields vis rest with
        | none => simp [hr] at hl
        | some l1 =>
          simp only [hr] at hl
          simp only [ih l1 hr]
          exact hl
    · rw [if_neg hp] at hl ⊢
      exact ih l hl

theorem visited_succ (env : TypeEnv) :
    ∀ (k : Nat) (t : RType) (l : List StructField), visited env k t = some l →
      visited env (k + 1) t = some l := by
  intro k
  induction k with
  | zero => intro t l h; simp [visited] at h
  | succ k ih =>
    intro t l h
    unfold visited at h ⊢
    cases hd : derefOnce t with
    | struct n =>
      simp only [hd] at h ⊢
      exact visitFields_mono _ _ ih _ l h
    | _ =>
      simp only [hd] at h ⊢
      exact h

theorem visited_le (env : TypeEnv) (t : RType) (l : List StructField) (k : Nat)
    (h : visited env k t = some l) : ∀ k1, k ≤ k1 → visited env k1 t = some l := by
  intro k1 hk
  induction hk with
  | refl => exact h
  | step _ ih => exact visited_succ env _ t l ih

theorem visitFields_none (vis : RType → Option (List StructField)) :
    ∀ fs : List StructField, visitFields vis fs = none →
      ∃ e ∈ fs, e.PkgPath = "" ∧ e.Anonymous = true ∧ vis e.Typ = none := by
  intro fs
  induction fs with
  | nil => intro h; simp [visitFields] at h
  | cons p rest ih =>
    intro h
    have hrest : visitFields vis rest = none →
        ∃ e ∈ p :: rest, e.PkgPath = "" ∧ e.Anonymous = true ∧ vis e.Typ = none := by
      intro hr
      obtain ⟨e, he, h1, h2, h3⟩ := ih hr
      exact ⟨e, List.mem_cons_of_mem _ he, h1, h2, h3⟩
    unfold visitFields at h
    by_cases hp : p.PkgPath = ""
    · rw [if_pos hp] at h
      by_cases ha : p.Anonymous = true
      · rw [if_pos ha] at h
        cases hv : vis p.Typ with
        | none => exact ⟨p, List.mem_cons_self _ _, hp, ha, hv⟩
        | some l0 =>
          cases hr : visitFields vis rest with
          | none => exact hrest hr
          | some l1 => simp [hv, hr] at h
      · rw [if_neg ha] at h
        cases hr : visitFields vis rest with
        | none => exact hrest hr
        | some l1 => simp [hr] at h
    · rw [if_neg hp] at h
      exact hrest h

/-- When `walkTreeStruct` does not return within `k` nested calls, there is a
chain of `k + 1` types, each calling the next. -/
theorem visited_none_chain (env : TypeEnv) :
    ∀ (k : Nat) (t : RType), visited env k t = none →
      ∃ l, List.Chain' (embeds env) l ∧ l.head? = some t ∧ l.length = k + 1 := by
  intro k
  induction k with
  | zero => intro t _; exact ⟨[t], List.chain'_singleton t, rfl, rfl⟩
  | succ k ih =>
    intro t h
    unfold visited at h
    cases hd : derefOnce t with
    | struct n =>
      simp only [hd] at h
      obtain ⟨e, he, hp, ha, hv⟩ := visitFields_none _ _ h
      obtain ⟨l, hc, hh, hl⟩ := ih e.Typ hv
      refine ⟨t :: l, ?_, rfl, by simp [hl]⟩
      apply List.Chain'.cons' hc
      intro y hy
      rw [hh] at hy
      have hy1 : e.Typ = y := by simpa using hy
      exact ⟨n, hd, e, he, hp, ha, hy1⟩
    | _ => simp [hd] at h

theorem chain_length_le (env : TypeEnv) (typ : RType)
    (hacyc : ∀ u, Relation.ReflTransGen (embeds env) typ u →
      ¬ Relation.TransGen (embeds env) u u)
    (l : List RType) (hc : List.Chain' (embeds env) l) (hh : l.head? = some typ) :
    l.length ≤ (fieldTypes env).length + 1 := by
  cases l with
  | nil => simp
  | cons a tl =>
    have ha : a = typ := by simpa using hh
    subst ha
    haveI : IsTrans RType (Relation.TransGen (embeds env)) :=
      ⟨fun _ _ _ h1 h2 => h1.trans h2⟩
    have hpw : List.Pairwise (Relation.TransGen (embeds env)) (a :: tl) :=
      List.chain'_iff_pairwise.mp (hc.imp (fun _ _ h => Relation.TransGen.single h))
    rw [List.pairwise_cons] at hpw
    have hsub : tl ⊆ fieldTypes env := by
      intro u hu
      have hau := hpw.1 u hu
      obtain ⟨c, _, hcu⟩ := Relation.TransGen.tail'_iff.mp hau
      exact embeds_mem_fieldTypes env c u hcu
    have hnd : tl.Nodup := by
      by_contra hn
      obtain ⟨u, hdup⟩ := List.exists_duplicate_iff_not_nodup.mpr hn
      have hs := List.duplicate_iff_sublist.mp hdup
      have huu := List.Pairwise.sublist hs hpw.2
      rw [List.pairwise_cons] at huu
      have hu : u ∈ tl := hs.subset (List.mem_cons_self _ _)
      exact hacyc u (hpw.1 u hu).to_reflTransGen (huu.1 u (List.mem_cons_self _ _))
    have := (hnd.subperm hsub).length_le
    simp only [List.length_cons]
    omega

theorem rankOf_lt_of_ranked (env : TypeEnv) (rk : String → Nat) (h : ranked env rk = true)
    (t u : RType) (he : embeds env t u) : rankOf rk u < rankOf rk t := by
  obtain ⟨n, hd, e, hmem, hp, ha, rfl⟩ := he
  obtain ⟨d, hdm, hd1, hed⟩ := fields_mem_env env n e hmem
  unfold ranked at h
  rw [List.all_eq_true] at h
  have h1 := h d hdm
  rw [List.all_eq_true] at h1
  have h2 := h1 e hed
  simp only [StructField.exported, hp, ha, decide_True, Bool.and_self, Bool.not_true,
    Bool.false_or, decide_eq_true_eq] at h2
  simp only [rankOf, hd]
  rw [← hd1]
  exact h2

/-- A ranked type environment has no cycle of embedded types. -/
theorem acyclic_of_ranked (env : TypeEnv) (rk : String → Nat) (h : ranked env rk = true)
    (u : RType) : ¬ Relation.TransGen (embeds env) u u := by
  have hlt : ∀ a b, Relation.TransGen (embeds env) a b → rankOf rk b < rankOf rk a := by
    intro a b hab
    induction hab with
    | single h1 => exact rankOf_lt_of_ranked env rk h _ _ h1
    | tail _ h2 ih => exact lt_trans (rankOf_lt_of_ranked env rk h _ _ h2) ih
  intro huu
  exact lt_irrefl _ (hlt u u huu)

/-- C19: let no type reached from `typ` along exported embedded fields (each
step removing one pointer level) lie on a cycle of such steps. Then the chains
of embedded types that start at `typ` have bounded length; whenever `d` bounds
their length, `walkTreeStruct` on `typ` returns, with the same map, for every
bound `k ≥ d` on the depth of nested calls; and `PopulateMapping` returns a map
(a finite list of entries) once the depth allowed exceeds the number of field
types of the program. -/
theorem walkTreeStruct_terminates (env : TypeEnv) (typ : RType)
    (hacyc : ∀ u, Relation.ReflTransGen (embeds env) typ u →
      ¬ Relation.TransGen (embeds env) u u) :
    (∃ d, ∀ l, List.Chain' (embeds env) l → l.head? = some typ → l.length ≤ d) ∧
    (∀ d, (∀ l, List.Chain' (embeds env) l → l.head? = some typ → l.length ≤ d) →
      ∀ pfx attrs, ∃ m, ∀ k, d ≤ k → walkTreeStruct env k pfx typ attrs = some m) ∧
    (∀ pfx, ∃ m, ∀ k, (fieldTypes env).length + 1 ≤ k →
      PopulateMapping env k pfx typ = some m) := by
  have hbound := chain_length_le env typ hacyc
  have hret : ∀ d, (∀ l, List.Chain' (embeds env) l → l.head? = some typ → l.length ≤ d) →
      ∀ pfx attrs, ∃ m, ∀ k, d ≤ k → walkTreeStruct env k pfx typ attrs = some m := by
    intro d hd pfx attrs
    cases hv : visited env d typ with
    | none =>
      obtain ⟨l, hc, hh, hl⟩ := visited_none_chain env d typ hv
      have := hd l hc hh
      omega
    | some l0 =>
      refine ⟨insertAll pfx l0 attrs, fun k hk => ?_⟩
      rw [walkTreeStruct_eq, visited_le env typ l0 d hv k hk]
      rfl
  refine ⟨⟨_, hbound⟩, hret, fun pfx => ?_⟩
  obtain ⟨m, hm⟩ := hret _ hbound pfx []
  exact ⟨m, fun k hk => hm k hk⟩

theorem walkTreeStruct_terminates_witness :
    (∃ d, ∀ l, List.Chain' (embeds exEnv) l → l.head? = some (.ptr (.struct "User")) →
      l.length ≤ d) ∧
    PopulateMapping exEnv 2 "u." (.ptr (.struct "User")) = some exMapping ∧
    ∃ m, ∀ k, (fieldTypes exEnv).length + 1 ≤ k →
      PopulateMapping exEnv k "u." (.ptr (.struct "User")) = some m :=
  ⟨(walkTreeStruct_terminates exEnv (.ptr (.struct "User"))
      (fun u _ => acyclic_of_ranked exEnv
        (fun n => if n = "User" then 1 else 0) (by decide) u)).1,
    by decide,
    (walkTreeStruct_terminates exEnv (.ptr (.struct "User"))
      (fun u _ => acyclic_of_ranked exEnv
        (fun n => if n = "User" then 1 else 0) (by decide) u)).2.2 "u."⟩

end GoSQL
